import Mathlib

/-!
# Conway's Game of Life: the simulation core of cgol.c

A shallow embedding of src/src/cgol.c (with the declarations of src/src/cgol.h).

Modelling decisions
* A C int is a Lean Int.  Signed overflow is undefined behaviour in C; the
  theorems below concern the defined range, so no wrap-around is modelled.
* A char buffer reached through a pointer is a total function from the offset
  (an Int) to the byte stored there.  Offsets in [0, rows*cols) are the
  allocated buffer; the value of the function at any other offset stands for
  whatever an unchecked read at that offset yields.  Every theorem is proved for
  every such function, so nothing is assumed about reads outside the buffer
  unless a hypothesis says so.
* A C for-loop whose counter runs from 0 up to game->rows or game->cols is
  forLoop; the bound is read from the state on entry to the loop (no loop body
  writes rows or cols) and the counter is handed to the body as an Int.
* The global int TICK_DELAY is mutable in C, so the functions that read it take
  its value at the time of the call as an argument.
* A char is a Lean Int as well. The code only ever stores 0, 1 or a byte it
  has read from a buffer; a statement about an arbitrary value handed to
  cgol_set or cgol_set_next assumes the value is in the range of char.
* rand() is a stream of integers; cgol_populate consumes one element per cell.
  srand(time(NULL)) only selects the stream, so cgol_init does not mention it.
* malloc is taken to succeed and to return a buffer of arbitrary content; a
  memset of negative length, which C would turn into a huge size_t, writes
  nothing in the model.
-/

namespace Cgol

/-! ## Data model (cgol.h) -/

/-- Enumerator DEAD_CELL of cell_state: the first enumerator, value 0. -/
abbrev DEAD_CELL : Int := 0

/-- Enumerator LIVE_CELL of cell_state: the second enumerator, value 1. -/
abbrev LIVE_CELL : Int := 1

/-- The game object: the struct CGOL of cgol.h. -/
structure CGOL where
  rows : Int
  cols : Int
  game_matrix : Int → Int
  next_matrix : Int → Int
  tick_delay : Int
  paused : Bool

/-- Initial value of the global TICK_DELAY (cgol.c line 19). -/
def TICK_DELAY : Int := 10

/-- A counted loop: for (i = 0; i < n; i++) body, run on state s. -/
def forLoop {σ : Type} : Nat → (Int → σ → σ) → σ → σ
  | 0, _, s => s
  | k + 1, body, s => body (k : Int) (forLoop k body s)

/-- The C library memset on a buffer: the bytes at offsets 0 .. n-1 become v. -/
def memset (m : Int → Int) (v : Int) (n : Int) : Int → Int :=
  fun i => if 0 ≤ i ∧ i < n then v else m i

/-! ## Game helper functions -/

/-- Source cgol_get: the cell at row, col of the current state. -/
def cgol_get (game : CGOL) (row col : Int) : Int :=
  game.game_matrix (game.cols * row + col)

/-- Source cgol_get_next: the cell at row, col of the next state. -/
def cgol_get_next (game : CGOL) (row col : Int) : Int :=
  game.next_matrix (game.cols * row + col)

/-- Source cgol_set: write value at row, col of the current state. The C
parameter is a char; the model stores the value as it is, which is what the
code does for every value in the range of char (InCharRange), the only values
the callers in cgol.c pass: 0, 1, or a byte read from a buffer. -/
def cgol_set (game : CGOL) (row col : Int) (value : Int) : CGOL :=
  { game with game_matrix := Function.update game.game_matrix (game.cols * row + col) value }

/-- Source cgol_set_next: write value at row, col of the next state. The C
parameter is a char, modelled as in cgol_set. -/
def cgol_set_next (game : CGOL) (row col : Int) (value : Int) : CGOL :=
  { game with next_matrix := Function.update game.next_matrix (game.cols * row + col) value }

/-- Source cgol_adjacent: y and x run over -1, 0, 1; the target cell is skipped;
every other cell that reads LIVE_CELL adds one to num_adjacent. -/
def cgol_adjacent (game : CGOL) (row col : Int) : Int :=
  ([-1, 0, 1] : List Int).foldl (fun num_adjacent y =>
    ([-1, 0, 1] : List Int).foldl (fun num_adjacent x =>
      if x = 0 ∧ y = 0 then num_adjacent
      else if cgol_get game (row + y) (col + x) = LIVE_CELL then num_adjacent + 1
      else num_adjacent) num_adjacent) 0

/-- Source randrange, with r the value returned by rand(); the division is the
truncating division of C. RAND_MAX comes from stdlib.h and is an argument. -/
def randrange (RAND_MAX r : Int) (min max : Int) : Int :=
  min + Int.tdiv r (Int.tdiv RAND_MAX (max + min + 1) + 1)

/-- Body of the inner loop of cgol_populate at cell y, x; k counts the calls
made to rand() so far. -/
def cgol_populate_cell (RAND_MAX : Int) (rand : Nat → Int) (y x : Int)
    (s : CGOL × Nat) : CGOL × Nat :=
  if randrange RAND_MAX (rand s.2) 1 100 < 70 then
    (cgol_set s.1 y x 0, s.2 + 1)
  else
    (cgol_set s.1 y x 1, s.2 + 1)

/-- Source cgol_populate: a random state for each cell of the game matrix. -/
def cgol_populate (RAND_MAX : Int) (rand : Nat → Int) (game : CGOL) : CGOL :=
  (forLoop game.rows.toNat (fun y s =>
    forLoop s.1.cols.toNat (fun x s => cgol_populate_cell RAND_MAX rand y x s) s)
    (game, 0)).1

/-! ## Game tick functions -/

/-- Body of the inner loop of generate_next_matrix at cell y, x: the four-way
if / else-if chain, with no final else. -/
def generate_next_cell (y x : Int) (game : CGOL) : CGOL :=
  let current_cell := cgol_get game y x
  let live_neighbours := cgol_adjacent game y x
  if current_cell = LIVE_CELL ∧ live_neighbours ≤ 1 then
    cgol_set_next game y x DEAD_CELL
  else if current_cell = LIVE_CELL ∧ live_neighbours ≥ 4 then
    cgol_set_next game y x DEAD_CELL
  else if current_cell = LIVE_CELL ∧ (live_neighbours = 2 ∨ live_neighbours = 3) then
    cgol_set_next game y x LIVE_CELL
  else if current_cell = DEAD_CELL ∧ live_neighbours = 3 then
    cgol_set_next game y x LIVE_CELL
  else
    game

/-- Source generate_next_matrix: the next frame, stored in next_matrix. -/
def generate_next_matrix (game : CGOL) : CGOL :=
  forLoop game.rows.toNat (fun y game =>
    forLoop game.cols.toNat (fun x game => generate_next_cell y x game) game) game

/-- Body of the copy loop of refresh_matrix at cell y, x. -/
def refresh_cell (y x : Int) (game : CGOL) : CGOL :=
  let cell_next_state := cgol_get_next game y x
  cgol_set game y x cell_next_state

/-- Source refresh_matrix: generate the next frame, then copy next_matrix into
game_matrix cell by cell. -/
def refresh_matrix (game : CGOL) : CGOL :=
  let game := generate_next_matrix game
  forLoop game.rows.toNat (fun y game =>
    forLoop game.cols.toNat (fun x game => refresh_cell y x game) game) game

/-- Source tick: one game tick; tickDelay is the value of the global TICK_DELAY. -/
def tick (tickDelay : Int) (game : CGOL) : CGOL :=
  let game := { game with tick_delay := game.tick_delay - 1 }
  if game.tick_delay ≤ 0 then
    { refresh_matrix game with tick_delay := tickDelay }
  else
    game

/-! ## Main public functions -/

/-- Source cgol_init: mem1 and mem2 are the contents of the two freshly
allocated buffers before memset; tickDelay is the value of the global
TICK_DELAY. -/
def cgol_init (tickDelay : Int) (mem1 mem2 : Int → Int) (rows cols : Int) : CGOL :=
  { rows := rows
    cols := cols
    game_matrix := memset mem1 DEAD_CELL (rows * cols)
    next_matrix := memset mem2 DEAD_CELL (rows * cols)
    tick_delay := tickDelay
    paused := false }

/-- Source cgol_create: initialise, then populate. -/
def cgol_create (tickDelay : Int) (mem1 mem2 : Int → Int) (RAND_MAX : Int)
    (rand : Nat → Int) (rows cols : Int) : CGOL :=
  cgol_populate RAND_MAX rand (cgol_init tickDelay mem1 mem2 rows cols)

/-- Source cgol_erase_matrix: both buffers are memset to DEAD_CELL. -/
def cgol_erase_matrix (game : CGOL) : CGOL :=
  { game with
    game_matrix := memset game.game_matrix DEAD_CELL (game.rows * game.cols)
    next_matrix := memset game.next_matrix DEAD_CELL (game.rows * game.cols) }

/-! ## Proof devices: visiting orders and the value a cell receives -/

/-- Cells (y, 0) .. (y, m-1) of row y, in the order the inner loops visit them. -/
def rowCells (y : Int) : Nat → List (Int × Int)
  | 0 => []
  | m + 1 => rowCells y m ++ [(y, (m : Int))]

/-- Cells of an n by m grid in row-major order, the order of the nested loops. -/
def gridCells : Nat → Nat → List (Int × Int)
  | 0, _ => []
  | n + 1, m => gridCells n m ++ rowCells (n : Int) m

/-- Run a per-cell loop body over the cells of l, first to last. -/
def visit {σ : Type} (body : Int → Int → σ → σ) (l : List (Int × Int)) (s : σ) : σ :=
  l.foldl (fun s p => body p.1 p.2 s) s

/-- The value, if any, that the if / else-if chain of generate_next_matrix
stores for cell y, x; none when no branch is taken. -/
def cellWrite (game : CGOL) (y x : Int) : Option Int :=
  if cgol_get game y x = LIVE_CELL ∧ cgol_adjacent game y x ≤ 1 then some DEAD_CELL
  else if cgol_get game y x = LIVE_CELL ∧ cgol_adjacent game y x ≥ 4 then some DEAD_CELL
  else if cgol_get game y x = LIVE_CELL ∧
      (cgol_adjacent game y x = 2 ∨ cgol_adjacent game y x = 3) then some LIVE_CELL
  else if cgol_get game y x = DEAD_CELL ∧ cgol_adjacent game y x = 3 then some LIVE_CELL
  else none

/-- The cell lies inside the grid. -/
def InGrid (game : CGOL) (row col : Int) : Prop :=
  0 ≤ row ∧ row < game.rows ∧ 0 ≤ col ∧ col < game.cols

/-- The cell and its eight neighbours all lie inside the grid. -/
def Interior (game : CGOL) (row col : Int) : Prop :=
  1 ≤ row ∧ row + 1 < game.rows ∧ 1 ≤ col ∧ col + 1 < game.cols

/-- Every cell of both grids is DEAD_CELL or LIVE_CELL. -/
def CellsBinary (game : CGOL) : Prop :=
  ∀ row col : Int, InGrid game row col →
    (cgol_get game row col = DEAD_CELL ∨ cgol_get game row col = LIVE_CELL) ∧
    (cgol_get_next game row col = DEAD_CELL ∨ cgol_get_next game row col = LIVE_CELL)

/-- The state g2 differs from g1 in next_matrix at most. -/
def SameExceptNext (g2 g1 : CGOL) : Prop :=
  g2.rows = g1.rows ∧ g2.cols = g1.cols ∧ g2.game_matrix = g1.game_matrix ∧
    g2.tick_delay = g1.tick_delay ∧ g2.paused = g1.paused

/-- The body of generate_next_matrix run over the cells of l in the order of l,
instead of the row-major order of the nested loops. -/
def generate_next_in_order (l : List (Int × Int)) (game : CGOL) : CGOL :=
  visit generate_next_cell l game

/-- The value cell y, x of next_matrix holds once the cell has been visited:
the value the chain stores, or the old content when no branch is taken. -/
def nextCellValue (game : CGOL) (y x : Int) : Int :=
  (cellWrite game y x).getD (game.next_matrix (game.cols * y + x))

/-- The offsets {-1,0,1} x {-1,0,1} without the origin, as the specification
lists the eight surrounding cells. -/
def neighbourOffsets : List (Int × Int) :=
  [(-1, -1), (-1, 0), (-1, 1), (0, -1), (0, 1), (1, -1), (1, 0), (1, 1)]

/-- The specification's live neighbour count: how many of the eight surrounding
cells hold LIVE_CELL in the current grid. -/
def liveNeighbourCount (game : CGOL) (row col : Int) : Nat :=
  (neighbourOffsets.filter
    (fun d => decide (cgol_get game (row + d.1) (col + d.2) = LIVE_CELL))).length

/-- A 4 by 4 grid holding a 2 by 2 block in its middle, next_matrix all dead. -/
def blockGame : CGOL :=
  { rows := 4
    cols := 4
    game_matrix := fun i => if i = 5 ∨ i = 6 ∨ i = 9 ∨ i = 10 then 1 else 0
    next_matrix := fun _ => 0
    tick_delay := 10
    paused := false }

/-- A 3 by 3 grid, every current cell dead, every cell of next_matrix live. -/
def staleGame : CGOL :=
  { rows := 3
    cols := 3
    game_matrix := fun _ => 0
    next_matrix := fun _ => 1
    tick_delay := 10
    paused := false }

/-- The state g2 differs from g1 in game_matrix at most. -/
def SameExceptGame (g2 g1 : CGOL) : Prop :=
  g2.rows = g1.rows ∧ g2.cols = g1.cols ∧ g2.next_matrix = g1.next_matrix ∧
    g2.tick_delay = g1.tick_delay ∧ g2.paused = g1.paused

/-- The current grid of g is a 2 by 2 block of Live cells with corner r, c that
does not touch the border; every other cell, and every byte an unchecked read
can reach outside the buffer, is Dead. -/
def IsBlock (g : CGOL) (r c : Int) : Prop :=
  1 ≤ r ∧ r + 2 < g.rows ∧ 1 ≤ c ∧ c + 2 < g.cols ∧
  ∀ i : Int, g.game_matrix i =
    if i = g.cols * r + c ∨ i = g.cols * r + (c + 1) ∨
        i = g.cols * (r + 1) + c ∨ i = g.cols * (r + 1) + (c + 1)
    then LIVE_CELL else DEAD_CELL

/-- A 5 by 5 grid holding a 2 by 2 block at rows 1, 2 and columns 1, 2, with a
next_matrix whose every cell is live, as left by cgol_set_next or by an earlier
generation followed by cgol_set. -/
def staleBlockGame : CGOL :=
  { rows := 5
    cols := 5
    game_matrix := fun i => if i = 6 ∨ i = 7 ∨ i = 11 ∨ i = 12 then 1 else 0
    next_matrix := fun _ => 1
    tick_delay := 10
    paused := false }

/-- States produced by cgol_create and then any sequence of cgol_populate,
cgol_erase_matrix, generate_next_matrix, refresh_matrix and tick. -/
inductive ReachableByOps (RAND_MAX : Int) : CGOL → Prop
  | create (tickDelay : Int) (mem1 mem2 : Int → Int) (rand : Nat → Int) (rows cols : Int) :
      ReachableByOps RAND_MAX (cgol_create tickDelay mem1 mem2 RAND_MAX rand rows cols)
  | populate (rand : Nat → Int) (g : CGOL) :
      ReachableByOps RAND_MAX g → ReachableByOps RAND_MAX (cgol_populate RAND_MAX rand g)
  | erase (g : CGOL) :
      ReachableByOps RAND_MAX g → ReachableByOps RAND_MAX (cgol_erase_matrix g)
  | generate (g : CGOL) :
      ReachableByOps RAND_MAX g → ReachableByOps RAND_MAX (generate_next_matrix g)
  | refresh (g : CGOL) :
      ReachableByOps RAND_MAX g → ReachableByOps RAND_MAX (refresh_matrix g)
  | tick (tickDelay : Int) (g : CGOL) :
      ReachableByOps RAND_MAX g → ReachableByOps RAND_MAX (tick tickDelay g)

/-- The blockGame grid with another countdown, the paused flag set, and a Live
byte at offset 1000, far beyond what any neighbour read reaches. -/
def pausedBlockGame : CGOL :=
  { rows := 4
    cols := 4
    game_matrix := fun i => if i = 5 ∨ i = 6 ∨ i = 9 ∨ i = 10 ∨ i = 1000 then 1 else 0
    next_matrix := fun _ => 0
    tick_delay := 3
    paused := true }

/-- A 3 by 3 grid, every cell of both grids Dead, and every byte outside the
buffer Dead as well. -/
def oobDeadGame : CGOL :=
  { rows := 3
    cols := 3
    game_matrix := fun _ => 0
    next_matrix := fun _ => 0
    tick_delay := 10
    paused := false }

/-- The same 3 by 3 grid, every cell of both grids Dead, with the three bytes at
offsets -4, -3, -2 in front of the buffer equal to LIVE_CELL. -/
def oobLiveGame : CGOL :=
  { rows := 3
    cols := 3
    game_matrix := fun i => if i = -4 ∨ i = -3 ∨ i = -2 then 1 else 0
    next_matrix := fun _ => 0
    tick_delay := 10
    paused := false }

/-- The two game_matrix buffers hold the same bytes at the offsets outside
[0, rows*cols) that the unchecked neighbour reads of border cells reach:
-cols-1 .. -1 in front of the buffer and rows*cols .. rows*cols+cols behind. -/
def SameBytesAroundBuffer (g1 g2 : CGOL) : Prop :=
  ∀ i : Int, (-g1.cols - 1 ≤ i ∧ i < 0) ∨
      (g1.rows * g1.cols ≤ i ∧ i ≤ g1.rows * g1.cols + g1.cols) →
    g1.game_matrix i = g2.game_matrix i

/-- The offsets into game_matrix that cgol_adjacent hands to cgol_get, in the
order of its two loops: the loops of cgol_adjacent with the read recorded
instead of counted. -/
def cgol_adjacent_reads (game : CGOL) (row col : Int) : List Int :=
  ([-1, 0, 1] : List Int).foldl (fun reads y =>
    ([-1, 0, 1] : List Int).foldl (fun reads x =>
      if x = 0 ∧ y = 0 then reads
      else reads ++ [game.cols * (row + y) + (col + x)]) reads) []

/-- Every offset cgol_adjacent reads lies inside the buffer [0, rows*cols). -/
def ReadsInBuffer (game : CGOL) (row col : Int) : Prop :=
  ∀ i ∈ cgol_adjacent_reads game row col, 0 ≤ i ∧ i < game.rows * game.cols

/-- The reset of main.c (key r): cgol_erase_matrix followed by cgol_populate. -/
def reset_board (RAND_MAX : Int) (rand : Nat → Int) (game : CGOL) : CGOL :=
  cgol_populate RAND_MAX rand (cgol_erase_matrix game)

/-- States the game loop of main.c reaches: cgol_create, then any sequence of
tick calls, resets and toggles of the paused flag (key p). -/
inductive ReachableInMain (RAND_MAX : Int) : CGOL → Prop
  | create (tickDelay : Int) (mem1 mem2 : Int → Int) (rand : Nat → Int) (rows cols : Int) :
      ReachableInMain RAND_MAX (cgol_create tickDelay mem1 mem2 RAND_MAX rand rows cols)
  | tick (tickDelay : Int) (g : CGOL) :
      ReachableInMain RAND_MAX g → ReachableInMain RAND_MAX (tick tickDelay g)
  | reset (rand : Nat → Int) (g : CGOL) :
      ReachableInMain RAND_MAX g → ReachableInMain RAND_MAX (reset_board RAND_MAX rand g)
  | pause (g : CGOL) :
      ReachableInMain RAND_MAX g → ReachableInMain RAND_MAX { g with paused := !g.paused }

/-- Every in-grid cell that is Dead in the current grid is Dead in the scratch
grid. -/
def ScratchDeadWhereDead (game : CGOL) : Prop :=
  ∀ row col : Int, InGrid game row col → cgol_get game row col = DEAD_CELL →
    cgol_get_next game row col = DEAD_CELL

/-- A 3 by 3 grid whose only Live cell is the centre; every cell of next_matrix
is Live. -/
def loneCellGame : CGOL :=
  { rows := 3
    cols := 3
    game_matrix := fun i => if i = 4 then 1 else 0
    next_matrix := fun _ => 1
    tick_delay := 10
    paused := false }

/-- A 3 by 3 grid with a Live centre and four Live neighbours (the top row and
the left neighbour); every cell of next_matrix is Live. -/
def crowdedGame : CGOL :=
  { rows := 3
    cols := 3
    game_matrix := fun i => if i = 0 ∨ i = 1 ∨ i = 2 ∨ i = 3 ∨ i = 4 then 1 else 0
    next_matrix := fun _ => 1
    tick_delay := 10
    paused := false }

/-- A 3 by 3 grid with a Dead centre and three Live neighbours (the top row);
every cell of next_matrix is Dead. -/
def birthGame : CGOL :=
  { rows := 3
    cols := 3
    game_matrix := fun i => if i = 0 ∨ i = 1 ∨ i = 2 then 1 else 0
    next_matrix := fun _ => 0
    tick_delay := 10
    paused := false }

/-- The value fits the char parameter of cgol_set and cgol_set_next: a signed
8-bit char, so the conversion at the call leaves it unchanged. -/
def InCharRange (v : Int) : Prop :=
  -128 ≤ v ∧ v ≤ 127

/-- A rand() stream whose calls 11, 12 and 13 return 2000000000 and every other
call 0: in a 5 by 5 grid cgol_populate makes the cells (2,1), (2,2), (2,3) Live
and every other cell Dead. -/
def blinkerRand : Nat → Int :=
  fun k => if k = 11 ∨ k = 12 ∨ k = 13 then 2000000000 else 0

/-- The state cgol_create(5, 5) returns with TICK_DELAY = 1, RAND_MAX =
2147483647, the stream blinkerRand and fresh buffers full of the byte 5: a
horizontal blinker. -/
def blinkerStart : CGOL :=
  cgol_create 1 (fun _ => 5) (fun _ => 5) 2147483647 blinkerRand 5 5

/-- The state after one tick of blinkerStart with TICK_DELAY = 1, which runs
refresh_matrix once: a vertical blinker in both grids. -/
def blinkerGame : CGOL :=
  tick 1 blinkerStart

/-! ## Loops and visiting orders -/

theorem visit_append {σ : Type} (body : Int → Int → σ → σ) (l₁ l₂ : List (Int × Int)) (s : σ) :
    visit body (l₁ ++ l₂) s = visit body l₂ (visit body l₁ s) := by
  simp [visit, List.foldl_append]

theorem forLoop_eq_visit_row {σ : Type} (body : Int → Int → σ → σ) (y : Int) (m : Nat) (s : σ) :
    forLoop m (fun x s => body y x s) s = visit body (rowCells y m) s := by
  induction m with
  | zero => rfl
  | succ m ih => simp only [forLoop, rowCells, visit_append, ih]; rfl

theorem forLoop_eq_visit_grid {σ : Type} (body : Int → Int → σ → σ) (n m : Nat) (s : σ) :
    forLoop n (fun y s => forLoop m (fun x s => body y x s) s) s
      = visit body (gridCells n m) s := by
  induction n with
  | zero => rfl
  | succ n ih =>
    simp only [forLoop_eq_visit_row] at ih ⊢
    simp only [forLoop, gridCells, visit_append, ih]

/-- Two loop bodies that agree on every state satisfying an invariant the
second one preserves give the same loop. -/
theorem forLoop_congr_inv {σ : Type} (I : σ → Prop) (n : Nat) (b1 b2 : Int → σ → σ) (s : σ)
    (h0 : I s) (hpres : ∀ k s, I s → I (b2 k s)) (heq : ∀ k s, I s → b1 k s = b2 k s) :
    forLoop n b1 s = forLoop n b2 s ∧ I (forLoop n b2 s) := by
  induction n with
  | zero => exact ⟨rfl, h0⟩
  | succ n ih =>
    simp only [forLoop]
    rw [ih.1, heq _ _ ih.2]
    exact ⟨rfl, hpres _ _ ih.2⟩

theorem mem_rowCells (y : Int) (m : Nat) (p : Int × Int) :
    p ∈ rowCells y m ↔ p.1 = y ∧ 0 ≤ p.2 ∧ p.2 < (m : Int) := by
  induction m with
  | zero =>
    simp only [rowCells, List.not_mem_nil, false_iff]
    rintro ⟨_, h2, h3⟩
    simp only [Nat.cast_zero] at h3
    omega
  | succ m ih =>
    simp only [rowCells, List.mem_append, ih, List.mem_singleton]
    constructor
    · rintro (⟨h1, h2, h3⟩ | h)
      · exact ⟨h1, h2, by push_cast; omega⟩
      · subst h; exact ⟨rfl, by simp, by push_cast; omega⟩
    · rintro ⟨h1, h2, h3⟩
      push_cast at h3
      by_cases hm : p.2 = (m : Int)
      · right; exact Prod.ext h1 hm
      · left; exact ⟨h1, h2, by omega⟩

theorem mem_gridCells (n m : Nat) (p : Int × Int) :
    p ∈ gridCells n m ↔ 0 ≤ p.1 ∧ p.1 < (n : Int) ∧ 0 ≤ p.2 ∧ p.2 < (m : Int) := by
  induction n with
  | zero =>
    simp only [gridCells, List.not_mem_nil, false_iff]
    rintro ⟨h1, h2, _⟩
    simp only [Nat.cast_zero] at h2
    omega
  | succ n ih =>
    simp only [gridCells, List.mem_append, ih, mem_rowCells]
    constructor
    · rintro (⟨h1, h2, h3, h4⟩ | ⟨h1, h2, h3⟩)
      · exact ⟨h1, by push_cast; omega, h3, h4⟩
      · exact ⟨by omega, by push_cast; omega, h2, h3⟩
    · rintro ⟨h1, h2, h3, h4⟩
      push_cast at h2
      by_cases hn : p.1 = (n : Int)
      · right; exact ⟨hn, h3, h4⟩
      · left; exact ⟨h1, by omega, h3, h4⟩

theorem mem_gridCells_toNat (game : CGOL) (p : Int × Int) :
    p ∈ gridCells game.rows.toNat game.cols.toNat ↔ InGrid game p.1 p.2 := by
  rw [mem_gridCells]
  unfold InGrid
  constructor
  · rintro ⟨h1, h2, h3, h4⟩; omega
  · rintro ⟨h1, h2, h3, h4⟩; omega

/-- Row-major indexing separates cells whose columns are in range. -/
theorem index_inj (cols y x y' x' : Int) (hx : 0 ≤ x) (hxc : x < cols)
    (hx' : 0 ≤ x') (hxc' : x' < cols) (h : cols * y + x = cols * y' + x') :
    y = y' ∧ x = x' := by
  have hy : y = y' := by
    rcases lt_trichotomy y y' with h1 | h1 | h1
    · have := mul_le_mul_of_nonneg_left (show y + 1 ≤ y' by omega) (show (0 : Int) ≤ cols by omega)
      nlinarith
    · exact h1
    · have := mul_le_mul_of_nonneg_left (show y' + 1 ≤ y by omega) (show (0 : Int) ≤ cols by omega)
      nlinarith
  subst hy
  exact ⟨rfl, by omega⟩

/-- An in-grid cell has its linear index inside the buffer. -/
theorem index_in_buffer (game : CGOL) (row col : Int) (h : InGrid game row col) :
    0 ≤ game.cols * row + col ∧ game.cols * row + col < game.rows * game.cols := by
  obtain ⟨h1, h2, h3, h4⟩ := h
  have hc : (0 : Int) ≤ game.cols := by omega
  have := mul_nonneg hc h1
  have := mul_le_mul_of_nonneg_left (show row + 1 ≤ game.rows by omega) hc
  constructor
  · omega
  · nlinarith

/-! ## generate_next_matrix: frame and per-cell value -/

theorem generate_next_cell_eq (y x : Int) (g : CGOL) :
    generate_next_cell y x g =
      match cellWrite g y x with
      | some v => cgol_set_next g y x v
      | none => g := by
  unfold generate_next_cell cellWrite
  simp only
  split_ifs <;> rfl

theorem cellWrite_congr (g g2 : CGOL) (hc : g2.cols = g.cols)
    (hm : g2.game_matrix = g.game_matrix) (y x : Int) :
    cellWrite g2 y x = cellWrite g y x := by
  unfold cellWrite cgol_adjacent cgol_get
  rw [hc, hm]

theorem SameExceptNext.refl (g : CGOL) : SameExceptNext g g :=
  ⟨rfl, rfl, rfl, rfl, rfl⟩

theorem SameExceptNext.trans {g3 g2 g1 : CGOL} (h : SameExceptNext g3 g2)
    (h2 : SameExceptNext g2 g1) : SameExceptNext g3 g1 :=
  ⟨h.1.trans h2.1, h.2.1.trans h2.2.1, h.2.2.1.trans h2.2.2.1,
    h.2.2.2.1.trans h2.2.2.2.1, h.2.2.2.2.trans h2.2.2.2.2⟩

theorem generate_next_cell_frame (y x : Int) (g : CGOL) :
    SameExceptNext (generate_next_cell y x g) g := by
  rw [generate_next_cell_eq]
  cases cellWrite g y x with
  | none => exact SameExceptNext.refl g
  | some v => exact ⟨rfl, rfl, rfl, rfl, rfl⟩

theorem generate_next_cell_next (y x : Int) (g : CGOL) (i : Int) :
    (generate_next_cell y x g).next_matrix i =
      if i = g.cols * y + x then nextCellValue g y x else g.next_matrix i := by
  rw [generate_next_cell_eq]
  unfold nextCellValue
  cases h : cellWrite g y x with
  | none =>
    by_cases hi : i = g.cols * y + x
    · simp [hi]
    · simp [hi]
  | some v =>
    by_cases hi : i = g.cols * y + x
    · simp [hi, cgol_set_next]
    · simp [hi, cgol_set_next, Function.update_noteq hi]

theorem visit_generate_frame (l : List (Int × Int)) (g : CGOL) :
    SameExceptNext (visit generate_next_cell l g) g := by
  induction l using List.reverseRecOn with
  | nil => exact SameExceptNext.refl g
  | append_singleton l q ih =>
    rw [visit_append]
    exact (generate_next_cell_frame q.1 q.2 _).trans ih

/-- A cell of next_matrix that no visited cell maps to keeps its content. -/
theorem visit_generate_untouched (l : List (Int × Int)) (g : CGOL) (i : Int)
    (h : ∀ p ∈ l, g.cols * p.1 + p.2 ≠ i) :
    (visit generate_next_cell l g).next_matrix i = g.next_matrix i := by
  induction l using List.reverseRecOn with
  | nil => rfl
  | append_singleton l q ih =>
    rw [visit_append]
    have hf := visit_generate_frame l g
    have hq : i ≠ (visit generate_next_cell l g).cols * q.1 + q.2 := by
      rw [hf.2.1]; exact fun e => h q (by simp) e.symm
    show (generate_next_cell q.1 q.2 _).next_matrix i = _
    rw [generate_next_cell_next, if_neg hq]
    exact ih (fun p hp => h p (List.mem_append_left _ hp))

/-- A visited cell whose index no other visited cell shares ends up holding
the value the chain assigns to it on the initial state. -/
theorem visit_generate_touched (l : List (Int × Int)) (g : CGOL) (p : Int × Int)
    (hp : p ∈ l)
    (hinj : ∀ q ∈ l, g.cols * q.1 + q.2 = g.cols * p.1 + p.2 → q = p) :
    (visit generate_next_cell l g).next_matrix (g.cols * p.1 + p.2)
      = nextCellValue g p.1 p.2 := by
  induction l using List.reverseRecOn with
  | nil => exact absurd hp (List.not_mem_nil p)
  | append_singleton l q ih =>
    rw [visit_append]
    have hf := visit_generate_frame l g
    have hinj2 : ∀ r ∈ l, g.cols * r.1 + r.2 = g.cols * p.1 + p.2 → r = p :=
      fun r hr => hinj r (List.mem_append_left _ hr)
    show (generate_next_cell q.1 q.2 _).next_matrix _ = _
    rw [generate_next_cell_next, hf.2.1]
    by_cases hq : g.cols * p.1 + p.2 = g.cols * q.1 + q.2
    · have hqp : q = p := hinj q (by simp) hq.symm
      subst hqp
      rw [if_pos rfl]
      have hcw := cellWrite_congr g _ hf.2.1 hf.2.2.1 q.1 q.2
      cases hw : cellWrite g q.1 q.2 with
      | some v => simp [nextCellValue, hcw, hw]
      | none =>
        have hold : (visit generate_next_cell l g).next_matrix (g.cols * q.1 + q.2)
            = g.next_matrix (g.cols * q.1 + q.2) := by
          by_cases hmem : q ∈ l
          · rw [ih hmem hinj2]
            simp [nextCellValue, hw]
          · exact visit_generate_untouched l g _ (fun r hr e => hmem (hinj2 r hr e ▸ hr))
        simp [nextCellValue, hcw, hw, hf.2.1, hold]
    · rw [if_neg hq]
      have hmem : p ∈ l := by
        rcases List.mem_append.1 hp with h1 | h1
        · exact h1
        · exact absurd (by rw [List.mem_singleton.1 h1]) hq
      exact ih hmem hinj2

theorem CGOL.eq_of_fields {g g2 : CGOL} (h : SameExceptNext g2 g)
    (hn : ∀ i, g2.next_matrix i = g.next_matrix i) : g2 = g := by
  obtain ⟨h1, h2, h3, h4, h5⟩ := h
  cases g; cases g2
  simp only at h1 h2 h3 h4 h5
  have := funext hn
  simp only at this
  subst h1 h2 h3 h4 h5 this
  rfl

theorem generate_next_matrix_eq_visit (g : CGOL) :
    generate_next_matrix g
      = visit generate_next_cell (gridCells g.rows.toNat g.cols.toNat) g := by
  unfold generate_next_matrix
  rw [← forLoop_eq_visit_grid]
  refine (forLoop_congr_inv (fun s => s.cols = g.cols) _ _ _ g rfl ?_ ?_).1
  · intro k s hs
    simp only [forLoop_eq_visit_row]
    exact (visit_generate_frame _ s).2.1.trans hs
  · intro k s hs
    simp only [hs]

theorem generate_next_matrix_frame (g : CGOL) :
    SameExceptNext (generate_next_matrix g) g := by
  rw [generate_next_matrix_eq_visit]
  exact visit_generate_frame _ g

/-- Among cells of the grid, equal linear index means equal cell. -/
theorem gridCells_index_inj (g : CGOL) (p : Int × Int) (hp : InGrid g p.1 p.2)
    (l : List (Int × Int)) (hl : ∀ q ∈ l, InGrid g q.1 q.2) :
    ∀ q ∈ l, g.cols * q.1 + q.2 = g.cols * p.1 + p.2 → q = p := by
  intro q hq e
  have hqg := hl q hq
  obtain ⟨h1, h2⟩ := index_inj g.cols q.1 q.2 p.1 p.2 hqg.2.2.1 hqg.2.2.2 hp.2.2.1 hp.2.2.2 e
  exact Prod.ext h1 h2

/-- Visiting every grid cell, in any order, leaves each in-grid cell of
next_matrix with the value the chain assigns on the initial state. -/
theorem visit_generate_cell (g : CGOL) (l : List (Int × Int))
    (hl : ∀ q, q ∈ l ↔ InGrid g q.1 q.2) (row col : Int) (h : InGrid g row col) :
    (visit generate_next_cell l g).next_matrix (g.cols * row + col)
      = nextCellValue g row col :=
  visit_generate_touched l g (row, col) ((hl (row, col)).2 h)
    (gridCells_index_inj g (row, col) h l (fun q hq => (hl q).1 hq))

theorem generate_next_matrix_cell (g : CGOL) (row col : Int) (h : InGrid g row col) :
    cgol_get_next (generate_next_matrix g) row col = nextCellValue g row col := by
  unfold cgol_get_next
  rw [(generate_next_matrix_frame g).2.1, generate_next_matrix_eq_visit]
  exact visit_generate_cell g _ (mem_gridCells_toNat g) row col h

theorem Interior.inGrid {g : CGOL} {row col : Int} (h : Interior g row col) :
    InGrid g row col := by
  unfold Interior at h
  unfold InGrid
  omega

/-- Every order that visits exactly the grid cells gives the same state. -/
theorem visit_generate_order (g : CGOL) (l l2 : List (Int × Int))
    (hl : ∀ q, q ∈ l ↔ InGrid g q.1 q.2) (hl2 : ∀ q, q ∈ l2 ↔ InGrid g q.1 q.2) :
    visit generate_next_cell l g = visit generate_next_cell l2 g := by
  have hf : SameExceptNext (visit generate_next_cell l g) (visit generate_next_cell l2 g) := by
    have h1 := visit_generate_frame l g
    have h2 := visit_generate_frame l2 g
    exact ⟨h1.1.trans h2.1.symm, h1.2.1.trans h2.2.1.symm, h1.2.2.1.trans h2.2.2.1.symm,
      h1.2.2.2.1.trans h2.2.2.2.1.symm, h1.2.2.2.2.trans h2.2.2.2.2.symm⟩
  apply CGOL.eq_of_fields hf
  intro i
  by_cases hi : ∃ q : Int × Int, InGrid g q.1 q.2 ∧ g.cols * q.1 + q.2 = i
  · obtain ⟨q, hq, rfl⟩ := hi
    rw [visit_generate_cell g l hl q.1 q.2 hq, visit_generate_cell g l2 hl2 q.1 q.2 hq]
  · have hno : ∀ q : Int × Int, InGrid g q.1 q.2 → g.cols * q.1 + q.2 ≠ i :=
      fun q hq e => hi ⟨q, hq, e⟩
    rw [visit_generate_untouched l g i (fun q hq => hno q ((hl q).1 hq)),
      visit_generate_untouched l2 g i (fun q hq => hno q ((hl2 q).1 hq))]

/-! ## cgol_adjacent -/

theorem cgol_adjacent_unfold (g : CGOL) (row col : Int) :
    cgol_adjacent g row col =
      (if cgol_get g (row + -1) (col + -1) = LIVE_CELL then 1 else 0)
      + (if cgol_get g (row + -1) (col + 0) = LIVE_CELL then 1 else 0)
      + (if cgol_get g (row + -1) (col + 1) = LIVE_CELL then 1 else 0)
      + (if cgol_get g (row + 0) (col + -1) = LIVE_CELL then 1 else 0)
      + (if cgol_get g (row + 0) (col + 1) = LIVE_CELL then 1 else 0)
      + (if cgol_get g (row + 1) (col + -1) = LIVE_CELL then 1 else 0)
      + (if cgol_get g (row + 1) (col + 0) = LIVE_CELL then 1 else 0)
      + (if cgol_get g (row + 1) (col + 1) = LIVE_CELL then 1 else 0) := by
  have step : ∀ (c : Prop) [Decidable c] (a : Int),
      (if c then a + 1 else a) = a + (if c then 1 else 0) := by
    intro c _ a; split_ifs <;> simp
  simp only [cgol_adjacent, List.foldl, step]
  simp

theorem liveNeighbourCount_unfold (g : CGOL) (row col : Int) :
    (liveNeighbourCount g row col : Int) =
      (if cgol_get g (row + -1) (col + -1) = LIVE_CELL then 1 else 0)
      + (if cgol_get g (row + -1) (col + 0) = LIVE_CELL then 1 else 0)
      + (if cgol_get g (row + -1) (col + 1) = LIVE_CELL then 1 else 0)
      + (if cgol_get g (row + 0) (col + -1) = LIVE_CELL then 1 else 0)
      + (if cgol_get g (row + 0) (col + 1) = LIVE_CELL then 1 else 0)
      + (if cgol_get g (row + 1) (col + -1) = LIVE_CELL then 1 else 0)
      + (if cgol_get g (row + 1) (col + 0) = LIVE_CELL then 1 else 0)
      + (if cgol_get g (row + 1) (col + 1) = LIVE_CELL then 1 else 0) := by
  have step : ∀ (c : Prop) [Decidable c] (a : Int × Int) (l : List (Int × Int)),
      (((if c then a :: l else l).length : Nat) : Int) = (if c then 1 else 0) + (l.length : Int) := by
    intro c _ a l; split_ifs <;> simp [add_comm]
  simp only [liveNeighbourCount, neighbourOffsets, List.filter_cons, decide_eq_true_eq, step,
    List.filter_nil, List.length_nil]
  simp only [Nat.cast_zero, add_zero]
  ring

theorem cgol_adjacent_eq_count (g : CGOL) (row col : Int) :
    cgol_adjacent g row col = (liveNeighbourCount g row col : Int) := by
  rw [cgol_adjacent_unfold, liveNeighbourCount_unfold]

theorem cgol_adjacent_bounds (g : CGOL) (row col : Int) :
    0 ≤ cgol_adjacent g row col ∧ cgol_adjacent g row col ≤ 8 := by
  rw [cgol_adjacent_unfold]
  constructor <;> split_ifs <;> simp

theorem cgol_get_set_of_ne (g : CGOL) (row col v r c : Int)
    (h : g.cols * r + c ≠ g.cols * row + col) :
    cgol_get (cgol_set g row col v) r c = cgol_get g r c := by
  simp [cgol_get, cgol_set, Function.update_noteq h]

/-- A neighbour of a cell with in-range columns on both sides has another
linear index than the cell. -/
theorem neighbour_index_ne (cols row col dy dx : Int) (hc : 3 ≤ cols)
    (hdy : -1 ≤ dy ∧ dy ≤ 1) (hdx : -1 ≤ dx ∧ dx ≤ 1) (hne : dy ≠ 0 ∨ dx ≠ 0) :
    cols * (row + dy) + (col + dx) ≠ cols * row + col := by
  intro h
  have h2 : cols * dy + dx = 0 := by linarith [mul_add cols row dy]
  have h3 : dy = -1 ∨ dy = 0 ∨ dy = 1 := by omega
  rcases h3 with h3 | h3 | h3 <;> subst h3 <;> simp at h2 <;> omega

theorem cgol_adjacent_set_self (g : CGOL) (row col v : Int) (h : Interior g row col) :
    cgol_adjacent (cgol_set g row col v) row col = cgol_adjacent g row col := by
  have hc : 3 ≤ g.cols := by unfold Interior at h; omega
  have hn : ∀ dy dx : Int, -1 ≤ dy ∧ dy ≤ 1 → -1 ≤ dx ∧ dx ≤ 1 → dy ≠ 0 ∨ dx ≠ 0 →
      cgol_get (cgol_set g row col v) (row + dy) (col + dx) = cgol_get g (row + dy) (col + dx) :=
    fun dy dx h1 h2 h3 =>
      cgol_get_set_of_ne g row col v _ _ (neighbour_index_ne g.cols row col dy dx hc h1 h2 h3)
  rw [cgol_adjacent_unfold, cgol_adjacent_unfold]
  rw [hn (-1) (-1) (by omega) (by omega) (by omega), hn (-1) 0 (by omega) (by omega) (by omega),
    hn (-1) 1 (by omega) (by omega) (by omega), hn 0 (-1) (by omega) (by omega) (by omega),
    hn 0 1 (by omega) (by omega) (by omega), hn 1 (-1) (by omega) (by omega) (by omega),
    hn 1 0 (by omega) (by omega) (by omega), hn 1 1 (by omega) (by omega) (by omega)]

/-! ## refresh_matrix: frame and per-cell value -/

theorem refresh_cell_frame (y x : Int) (g : CGOL) : SameExceptGame (refresh_cell y x g) g :=
  ⟨rfl, rfl, rfl, rfl, rfl⟩

theorem refresh_cell_game (y x : Int) (g : CGOL) (i : Int) :
    (refresh_cell y x g).game_matrix i =
      if i = g.cols * y + x then g.next_matrix i else g.game_matrix i := by
  by_cases hi : i = g.cols * y + x
  · simp [refresh_cell, cgol_set, cgol_get_next, hi]
  · simp [refresh_cell, cgol_set, cgol_get_next, hi, Function.update_noteq hi]

theorem visit_refresh_frame (l : List (Int × Int)) (g : CGOL) :
    SameExceptGame (visit refresh_cell l g) g := by
  induction l using List.reverseRecOn with
  | nil => exact ⟨rfl, rfl, rfl, rfl, rfl⟩
  | append_singleton l q ih =>
    rw [visit_append]
    exact ih

/-- After the copy loop a cell of game_matrix holds the content of next_matrix
when some visited cell maps to it, and its old content otherwise. -/
theorem visit_refresh_game (l : List (Int × Int)) (g : CGOL) (i : Int) :
    (visit refresh_cell l g).game_matrix i =
      if ∃ p ∈ l, g.cols * p.1 + p.2 = i then g.next_matrix i else g.game_matrix i := by
  induction l using List.reverseRecOn with
  | nil => simp [visit]
  | append_singleton l q ih =>
    rw [visit_append]
    have hf := visit_refresh_frame l g
    show (refresh_cell q.1 q.2 _).game_matrix i = _
    rw [refresh_cell_game, hf.2.1, hf.2.2.1, ih]
    by_cases hq : i = g.cols * q.1 + q.2
    · have : ∃ p ∈ l ++ [q], g.cols * p.1 + p.2 = i := ⟨q, by simp, hq.symm⟩
      rw [if_pos hq, if_pos this]
    · rw [if_neg hq]
      by_cases hl : ∃ p ∈ l, g.cols * p.1 + p.2 = i
      · obtain ⟨p, hp, e⟩ := hl
        rw [if_pos ⟨p, hp, e⟩, if_pos ⟨p, List.mem_append_left _ hp, e⟩]
      · have : ¬ ∃ p ∈ l ++ [q], g.cols * p.1 + p.2 = i := by
          rintro ⟨p, hp, e⟩
          rcases List.mem_append.1 hp with h1 | h1
          · exact hl ⟨p, h1, e⟩
          · rw [List.mem_singleton.1 h1] at e
            exact hq e.symm
        rw [if_neg hl, if_neg this]

theorem refresh_matrix_eq_visit (g : CGOL) :
    refresh_matrix g
      = visit refresh_cell (gridCells g.rows.toNat g.cols.toNat) (generate_next_matrix g) := by
  have hg := generate_next_matrix_frame g
  unfold refresh_matrix
  simp only
  rw [← forLoop_eq_visit_grid, hg.1]
  refine (forLoop_congr_inv (fun s => s.cols = g.cols) _ _ _ _ hg.2.1 ?_ ?_).1
  · intro k s hs
    simp only [forLoop_eq_visit_row]
    exact (visit_refresh_frame _ s).2.1.trans hs
  · intro k s hs
    simp only [hs]

/-- What refresh_matrix leaves outside game_matrix: dimensions, countdown and
flag of the initial state, and the next_matrix of generate_next_matrix. -/
theorem refresh_matrix_frame (g : CGOL) :
    (refresh_matrix g).rows = g.rows ∧ (refresh_matrix g).cols = g.cols ∧
    (refresh_matrix g).next_matrix = (generate_next_matrix g).next_matrix ∧
    (refresh_matrix g).tick_delay = g.tick_delay ∧ (refresh_matrix g).paused = g.paused := by
  have hg := generate_next_matrix_frame g
  rw [refresh_matrix_eq_visit]
  have hf := visit_refresh_frame (gridCells g.rows.toNat g.cols.toNat) (generate_next_matrix g)
  exact ⟨hf.1.trans hg.1, hf.2.1.trans hg.2.1, hf.2.2.1, hf.2.2.2.1.trans hg.2.2.2.1,
    hf.2.2.2.2.trans hg.2.2.2.2⟩

theorem refresh_matrix_cell (g : CGOL) (row col : Int) (h : InGrid g row col) :
    cgol_get (refresh_matrix g) row col = cgol_get_next (generate_next_matrix g) row col := by
  have hg := generate_next_matrix_frame g
  unfold cgol_get cgol_get_next
  rw [(refresh_matrix_frame g).2.1, hg.2.1, refresh_matrix_eq_visit, visit_refresh_game, hg.2.1]
  rw [if_pos ⟨(row, col), (mem_gridCells_toNat g (row, col)).2 h, rfl⟩]

theorem refresh_matrix_cell_value (g : CGOL) (row col : Int) (h : InGrid g row col) :
    cgol_get (refresh_matrix g) row col = nextCellValue g row col := by
  rw [refresh_matrix_cell g row col h, generate_next_matrix_cell g row col h]

/-! ## tick -/

theorem forLoop_comm {σ : Type} (f : σ → σ) (n : Nat) (body : Int → σ → σ)
    (h : ∀ k s, body k (f s) = f (body k s)) (s : σ) :
    forLoop n body (f s) = f (forLoop n body s) := by
  induction n with
  | zero => rfl
  | succ n ih => simp only [forLoop, ih, h]

theorem generate_next_cell_tick_delay (y x d : Int) (g : CGOL) :
    generate_next_cell y x { g with tick_delay := d }
      = { generate_next_cell y x g with tick_delay := d } := by
  rw [generate_next_cell_eq, generate_next_cell_eq,
    cellWrite_congr g { g with tick_delay := d } rfl rfl]
  cases cellWrite g y x <;> rfl

theorem generate_next_matrix_tick_delay (d : Int) (g : CGOL) :
    generate_next_matrix { g with tick_delay := d }
      = { generate_next_matrix g with tick_delay := d } := by
  unfold generate_next_matrix
  refine forLoop_comm (fun s : CGOL => { s with tick_delay := d }) g.rows.toNat
    (fun y game => forLoop game.cols.toNat (fun x game => generate_next_cell y x game) game)
    ?_ g
  intro y s
  exact forLoop_comm (fun s : CGOL => { s with tick_delay := d }) s.cols.toNat
    (fun x game => generate_next_cell y x game)
    (fun x s => generate_next_cell_tick_delay y x d s) s

/-- The countdown plays no part in refresh_matrix. -/
theorem refresh_matrix_tick_delay (d : Int) (g : CGOL) :
    refresh_matrix { g with tick_delay := d }
      = { refresh_matrix g with tick_delay := d } := by
  unfold refresh_matrix
  simp only
  rw [generate_next_matrix_tick_delay]
  refine forLoop_comm (fun s : CGOL => { s with tick_delay := d })
    (generate_next_matrix g).rows.toNat
    (fun y game => forLoop game.cols.toNat (fun x game => refresh_cell y x game) game)
    ?_ (generate_next_matrix g)
  intro y s
  exact forLoop_comm (fun s : CGOL => { s with tick_delay := d }) s.cols.toNat
    (fun x game => refresh_cell y x game) (fun x s => rfl) s

theorem tick_of_gt (N : Int) (g : CGOL) (h : 1 < g.tick_delay) :
    tick N g = { g with tick_delay := g.tick_delay - 1 } := by
  unfold tick
  simp only
  rw [if_neg (by omega)]

theorem tick_of_le (N : Int) (g : CGOL) (h : g.tick_delay ≤ 1) :
    tick N g = { refresh_matrix g with tick_delay := N } := by
  unfold tick
  simp only
  rw [if_pos (by omega), refresh_matrix_tick_delay]

/-- While the countdown stays above the number of calls, tick only counts down. -/
theorem tick_iterate_of_lt (N : Int) (g : CGOL) (k : Nat) (h : (k : Int) < g.tick_delay) :
    (tick N)^[k] g = { g with tick_delay := g.tick_delay - k } := by
  induction k with
  | zero => simp
  | succ k ih =>
    rw [Function.iterate_succ_apply', ih (by push_cast at h; omega), tick_of_gt]
    · simp only [Nat.cast_add, Nat.cast_one]
      congr 1
      omega
    · show 1 < g.tick_delay - k
      push_cast at h
      omega

/-- Calling tick as often as the countdown says is one refresh_matrix. -/
theorem tick_iterate_full (N : Int) (g : CGOL) (h : 1 ≤ g.tick_delay) :
    (tick N)^[g.tick_delay.toNat] g = { refresh_matrix g with tick_delay := N } := by
  have e : g.tick_delay.toNat = (g.tick_delay - 1).toNat + 1 := by omega
  rw [e, Function.iterate_succ_apply', tick_iterate_of_lt N g _ (by omega), tick_of_le,
    refresh_matrix_tick_delay]
  show g.tick_delay - ((g.tick_delay - 1).toNat : Int) ≤ 1
  omega

/-! ## cgol_set and cgol_get -/

theorem cgol_get_set_self (g : CGOL) (row col v : Int) :
    cgol_get (cgol_set g row col v) row col = v := by
  simp [cgol_get, cgol_set]

theorem cgol_get_next_set_next_self (g : CGOL) (row col v : Int) :
    cgol_get_next (cgol_set_next g row col v) row col = v := by
  simp [cgol_get_next, cgol_set_next]

theorem cgol_get_next_set_next_of_ne (g : CGOL) (row col v r c : Int)
    (h : g.cols * r + c ≠ g.cols * row + col) :
    cgol_get_next (cgol_set_next g row col v) r c = cgol_get_next g r c := by
  simp [cgol_get_next, cgol_set_next, Function.update_noteq h]

/-- Two different in-grid cells have different linear indices. -/
theorem index_ne_of_ne (g : CGOL) (row col r c : Int) (h : InGrid g row col)
    (h2 : InGrid g r c) (hne : (r, c) ≠ (row, col)) :
    g.cols * r + c ≠ g.cols * row + col := by
  intro e
  obtain ⟨e1, e2⟩ := index_inj g.cols r c row col h2.2.2.1 h2.2.2.2 h.2.2.1 h.2.2.2 e
  exact hne (by rw [e1, e2])

/-! ## Cells stay Dead or Live -/

theorem forLoop_invariant {σ : Type} (P : σ → Prop) (n : Nat) (body : Int → σ → σ) (s : σ)
    (h0 : P s) (hstep : ∀ k s, P s → P (body k s)) : P (forLoop n body s) := by
  induction n with
  | zero => exact h0
  | succ n ih => exact hstep _ _ ih

/-- A state with binary cells keeps them when game_matrix only receives the
values 0 and 1 and the rest of the state is untouched. -/
theorem CellsBinary.of_game_writes {g g2 : CGOL} (h : CellsBinary g)
    (hf : SameExceptGame g2 g)
    (hw : ∀ i, g2.game_matrix i = g.game_matrix i ∨ g2.game_matrix i = 0 ∨ g2.game_matrix i = 1) :
    CellsBinary g2 := by
  obtain ⟨h1, h2, h3, _, _⟩ := hf
  intro row col hin
  have hin2 : InGrid g row col := by
    unfold InGrid at hin ⊢
    rw [h1, h2] at hin
    exact hin
  obtain ⟨ha, hb⟩ := h row col hin2
  simp only [cgol_get, cgol_get_next] at ha hb ⊢
  rw [h2, h3]
  refine ⟨?_, hb⟩
  rcases hw (g.cols * row + col) with e | e | e
  · rw [e]; exact ha
  · exact Or.inl e
  · exact Or.inr e

theorem cgol_populate_cell_writes (RAND_MAX : Int) (rand : Nat → Int) (y x : Int)
    (s : CGOL × Nat) :
    SameExceptGame (cgol_populate_cell RAND_MAX rand y x s).1 s.1 ∧
    ∀ i, (cgol_populate_cell RAND_MAX rand y x s).1.game_matrix i = s.1.game_matrix i ∨
      (cgol_populate_cell RAND_MAX rand y x s).1.game_matrix i = 0 ∨
      (cgol_populate_cell RAND_MAX rand y x s).1.game_matrix i = 1 := by
  unfold cgol_populate_cell
  split_ifs
  · refine ⟨⟨rfl, rfl, rfl, rfl, rfl⟩, fun i => ?_⟩
    by_cases hi : i = s.1.cols * y + x
    · right; left; simp [cgol_set, hi]
    · left; simp [cgol_set, Function.update_noteq hi]
  · refine ⟨⟨rfl, rfl, rfl, rfl, rfl⟩, fun i => ?_⟩
    by_cases hi : i = s.1.cols * y + x
    · right; right; simp [cgol_set, hi]
    · left; simp [cgol_set, Function.update_noteq hi]

theorem cgol_populate_writes (RAND_MAX : Int) (rand : Nat → Int) (g : CGOL) :
    SameExceptGame (cgol_populate RAND_MAX rand g) g ∧
    ∀ i, (cgol_populate RAND_MAX rand g).game_matrix i = g.game_matrix i ∨
      (cgol_populate RAND_MAX rand g).game_matrix i = 0 ∨
      (cgol_populate RAND_MAX rand g).game_matrix i = 1 := by
  unfold cgol_populate
  have step : ∀ (y x : Int) (s : CGOL × Nat),
      (SameExceptGame s.1 g ∧
        ∀ i, s.1.game_matrix i = g.game_matrix i ∨ s.1.game_matrix i = 0 ∨
          s.1.game_matrix i = 1) →
      (SameExceptGame (cgol_populate_cell RAND_MAX rand y x s).1 g ∧
        ∀ i, (cgol_populate_cell RAND_MAX rand y x s).1.game_matrix i = g.game_matrix i ∨
          (cgol_populate_cell RAND_MAX rand y x s).1.game_matrix i = 0 ∨
          (cgol_populate_cell RAND_MAX rand y x s).1.game_matrix i = 1) := by
    intro y x s ⟨hf, hw⟩
    obtain ⟨hf2, hw2⟩ := cgol_populate_cell_writes RAND_MAX rand y x s
    refine ⟨⟨hf2.1.trans hf.1, hf2.2.1.trans hf.2.1, hf2.2.2.1.trans hf.2.2.1,
      hf2.2.2.2.1.trans hf.2.2.2.1, hf2.2.2.2.2.trans hf.2.2.2.2⟩, fun i => ?_⟩
    rcases hw2 i with e | e | e
    · rw [e]; exact hw i
    · exact Or.inr (Or.inl e)
    · exact Or.inr (Or.inr e)
  refine forLoop_invariant
    (fun s : CGOL × Nat => SameExceptGame s.1 g ∧
      ∀ i, s.1.game_matrix i = g.game_matrix i ∨ s.1.game_matrix i = 0 ∨
        s.1.game_matrix i = 1) _ _ _ ⟨⟨rfl, rfl, rfl, rfl, rfl⟩, fun i => Or.inl rfl⟩ ?_
  intro y s hs
  exact forLoop_invariant
    (fun s : CGOL × Nat => SameExceptGame s.1 g ∧
      ∀ i, s.1.game_matrix i = g.game_matrix i ∨ s.1.game_matrix i = 0 ∨
        s.1.game_matrix i = 1) s.1.cols.toNat
    (fun x s => cgol_populate_cell RAND_MAX rand y x s) s hs (fun x s hs => step y x s hs)

theorem cgol_populate_binary (RAND_MAX : Int) (rand : Nat → Int) (g : CGOL)
    (h : CellsBinary g) : CellsBinary (cgol_populate RAND_MAX rand g) :=
  h.of_game_writes (cgol_populate_writes RAND_MAX rand g).1
    (cgol_populate_writes RAND_MAX rand g).2

theorem cgol_init_binary (tickDelay : Int) (mem1 mem2 : Int → Int) (rows cols : Int) :
    CellsBinary (cgol_init tickDelay mem1 mem2 rows cols) := by
  intro row col hin
  have hb := index_in_buffer _ row col hin
  simp only [cgol_init] at hb
  simp [cgol_get, cgol_get_next, cgol_init, memset, hb]

theorem cgol_create_binary (tickDelay : Int) (mem1 mem2 : Int → Int) (RAND_MAX : Int)
    (rand : Nat → Int) (rows cols : Int) :
    CellsBinary (cgol_create tickDelay mem1 mem2 RAND_MAX rand rows cols) :=
  cgol_populate_binary RAND_MAX rand _ (cgol_init_binary tickDelay mem1 mem2 rows cols)

theorem cgol_erase_matrix_binary (g : CGOL) : CellsBinary (cgol_erase_matrix g) := by
  intro row col hin
  have hb := index_in_buffer _ row col hin
  simp only [cgol_erase_matrix] at hb
  simp [cgol_get, cgol_get_next, cgol_erase_matrix, memset, hb]

theorem nextCellValue_binary (g : CGOL) (row col : Int)
    (h : cgol_get_next g row col = DEAD_CELL ∨ cgol_get_next g row col = LIVE_CELL) :
    nextCellValue g row col = DEAD_CELL ∨ nextCellValue g row col = LIVE_CELL := by
  unfold cgol_get_next at h
  unfold nextCellValue cellWrite
  split_ifs <;> simp [h]

theorem generate_next_matrix_binary (g : CGOL) (h : CellsBinary g) :
    CellsBinary (generate_next_matrix g) := by
  have hf := generate_next_matrix_frame g
  intro row col hin
  have hin2 : InGrid g row col := by
    unfold InGrid at hin ⊢
    rw [hf.1, hf.2.1] at hin
    exact hin
  obtain ⟨ha, hb⟩ := h row col hin2
  constructor
  · unfold cgol_get at ha ⊢
    rw [hf.2.1, hf.2.2.1]
    exact ha
  · rw [generate_next_matrix_cell g row col hin2]
    exact nextCellValue_binary g row col hb

theorem refresh_matrix_binary (g : CGOL) (h : CellsBinary g) :
    CellsBinary (refresh_matrix g) := by
  have hf := refresh_matrix_frame g
  have hg := generate_next_matrix_frame g
  intro row col hin
  have hin2 : InGrid g row col := by
    unfold InGrid at hin ⊢
    rw [hf.1, hf.2.1] at hin
    exact hin
  have hb := nextCellValue_binary g row col (h row col hin2).2
  constructor
  · rw [refresh_matrix_cell_value g row col hin2]
    exact hb
  · have e : cgol_get_next (refresh_matrix g) row col
        = cgol_get_next (generate_next_matrix g) row col := by
      unfold cgol_get_next
      rw [hf.2.2.1, hf.2.1, hg.2.1]
    rw [e, generate_next_matrix_cell g row col hin2]
    exact hb

theorem tick_binary (tickDelay : Int) (g : CGOL) (h : CellsBinary g) :
    CellsBinary (tick tickDelay g) := by
  by_cases hd : 1 < g.tick_delay
  · rw [tick_of_gt tickDelay g hd]
    exact h
  · rw [tick_of_le tickDelay g (by omega)]
    exact refresh_matrix_binary g h

/-! ## The 2 by 2 block -/

/-- A linear index whose column is at most one step outside the grid equals the
index of a cell at least one step inside only if row and column agree. -/
theorem index_inj_wide (cols Y X R C : Int) (hX : -1 ≤ X ∧ X ≤ cols)
    (hC : 1 ≤ C ∧ C + 1 < cols) (h : cols * Y + X = cols * R + C) : Y = R ∧ X = C := by
  have hY : Y = R := by
    rcases lt_trichotomy Y R with h1 | h1 | h1
    · have := mul_le_mul_of_nonneg_left (show Y + 1 ≤ R by omega) (show (0 : Int) ≤ cols by omega)
      nlinarith
    · exact h1
    · have := mul_le_mul_of_nonneg_left (show R + 1 ≤ Y by omega) (show (0 : Int) ≤ cols by omega)
      nlinarith
  subst hY
  exact ⟨rfl, by omega⟩

/-- Reading a block grid at most one column outside the grid: Live exactly on
the four block cells. -/
theorem block_get (g : CGOL) (r c : Int) (hb : IsBlock g r c) (y x : Int)
    (hx : -1 ≤ x ∧ x ≤ g.cols) :
    cgol_get g y x = if (r ≤ y ∧ y ≤ r + 1) ∧ (c ≤ x ∧ x ≤ c + 1) then 1 else 0 := by
  obtain ⟨_, _, hc1, hc2, hm⟩ := hb
  unfold cgol_get
  rw [hm]
  by_cases h : (r ≤ y ∧ y ≤ r + 1) ∧ (c ≤ x ∧ x ≤ c + 1)
  · rw [if_pos h, if_pos]
    have hy : y = r ∨ y = r + 1 := by omega
    have hx2 : x = c ∨ x = c + 1 := by omega
    rcases hy with hy | hy <;> rcases hx2 with hx2 | hx2 <;> subst hy <;> subst hx2 <;> simp
  · rw [if_neg h, if_neg]
    rintro (e | e | e | e)
    · obtain ⟨e1, e2⟩ := index_inj_wide g.cols y x r c hx (by omega) e
      omega
    · obtain ⟨e1, e2⟩ := index_inj_wide g.cols y x r (c + 1) hx (by omega) e
      omega
    · obtain ⟨e1, e2⟩ := index_inj_wide g.cols y x (r + 1) c hx (by omega) e
      omega
    · obtain ⟨e1, e2⟩ := index_inj_wide g.cols y x (r + 1) (c + 1) hx (by omega) e
      omega

theorem indicator_and (P Q : Prop) [Decidable P] [Decidable Q] :
    (if (if P ∧ Q then (1 : Int) else 0) = LIVE_CELL then (1 : Int) else 0)
      = (if P then 1 else 0) * (if Q then 1 else 0) := by
  by_cases hP : P <;> by_cases hQ : Q <;> simp [hP, hQ]

/-- In a block grid a block cell has three live neighbours and every other
in-grid cell has a count other than three. -/
theorem block_adjacent (g : CGOL) (r c : Int) (hb : IsBlock g r c) (row col : Int)
    (hin : InGrid g row col) :
    (cgol_get g row col = LIVE_CELL ∧ cgol_adjacent g row col = 3) ∨
    (cgol_get g row col = DEAD_CELL ∧ cgol_adjacent g row col ≠ 3) := by
  obtain ⟨_, _, h3, h4⟩ := hin
  rw [cgol_adjacent_unfold, block_get g r c hb row col (by omega),
    block_get g r c hb (row + -1) (col + -1) (by omega),
    block_get g r c hb (row + -1) (col + 0) (by omega),
    block_get g r c hb (row + -1) (col + 1) (by omega),
    block_get g r c hb (row + 0) (col + -1) (by omega),
    block_get g r c hb (row + 0) (col + 1) (by omega),
    block_get g r c hb (row + 1) (col + -1) (by omega),
    block_get g r c hb (row + 1) (col + 0) (by omega),
    block_get g r c hb (row + 1) (col + 1) (by omega)]
  simp only [indicator_and]
  unfold LIVE_CELL DEAD_CELL
  split_ifs <;> omega

/-- A block grid whose scratch grid is Dead wherever the current grid is Dead
is left unchanged by refresh_matrix. -/
theorem refresh_matrix_block_of_clean_scratch (g : CGOL) (r c : Int) (hb : IsBlock g r c)
    (hclean : ∀ row col : Int, InGrid g row col → cgol_get g row col = DEAD_CELL →
      cgol_get_next g row col = DEAD_CELL)
    (row col : Int) (hin : InGrid g row col) :
    cgol_get (refresh_matrix g) row col = cgol_get g row col := by
  rw [refresh_matrix_cell_value g row col hin]
  unfold nextCellValue cellWrite
  rcases block_adjacent g r c hb row col hin with ⟨h1, h2⟩ | ⟨h1, h2⟩
  · simp [h1, h2]
  · have h3 := hclean row col hin h1
    unfold cgol_get_next at h3
    simp [h1, h2, h3]

/-! ## Concrete states -/

theorem blockGame_binary : CellsBinary blockGame := by
  intro row col _
  simp only [cgol_get, cgol_get_next, blockGame]
  constructor
  · split_ifs <;> simp
  · simp

theorem blockGame_interior : Interior blockGame 1 1 := by
  unfold Interior blockGame
  simp

theorem staleGame_interior : Interior staleGame 1 1 := by
  unfold Interior staleGame
  simp

/-! ## Claims -/

/-- Claim C1. In a state whose cells are all Dead or Live, for a cell whose
eight neighbours lie inside the grid and n = cgol_adjacent on the current grid,
generate_next_matrix leaves the scratch cell Dead when the cell is Live with
n <= 1, Dead when Live with n >= 4, Live when Live with n = 2 or 3, and Live
when Dead with n = 3. -/
theorem generate_next_matrix_rules (g : CGOL) (row col : Int)
    (hbin : CellsBinary g) (hint : Interior g row col) :
    (cgol_get g row col = LIVE_CELL ∧ cgol_adjacent g row col ≤ 1 →
      cgol_get_next (generate_next_matrix g) row col = DEAD_CELL) ∧
    (cgol_get g row col = LIVE_CELL ∧ cgol_adjacent g row col ≥ 4 →
      cgol_get_next (generate_next_matrix g) row col = DEAD_CELL) ∧
    (cgol_get g row col = LIVE_CELL ∧
        (cgol_adjacent g row col = 2 ∨ cgol_adjacent g row col = 3) →
      cgol_get_next (generate_next_matrix g) row col = LIVE_CELL) ∧
    (cgol_get g row col = DEAD_CELL ∧ cgol_adjacent g row col = 3 →
      cgol_get_next (generate_next_matrix g) row col = LIVE_CELL) := by
  have _ := hbin
  rw [generate_next_matrix_cell g row col hint.inGrid]
  unfold nextCellValue cellWrite
  refine ⟨?_, ?_, ?_, ?_⟩
  · rintro ⟨h1, h2⟩
    simp [h1, h2]
  · rintro ⟨h1, h2⟩
    have h3 : ¬ cgol_adjacent g row col ≤ 1 := by omega
    simp [h1, h2, h3]
  · rintro ⟨h1, h2⟩
    have h3 : ¬ cgol_adjacent g row col ≤ 1 := by omega
    have h4 : ¬ cgol_adjacent g row col ≥ 4 := by omega
    simp [h1, h2, h3, h4]
  · rintro ⟨h1, h2⟩
    simp [h1, h2]

theorem generate_next_matrix_rules_witness :
    CellsBinary blockGame ∧ Interior blockGame 1 1 ∧
    ((cgol_get blockGame 1 1 = LIVE_CELL ∧ cgol_adjacent blockGame 1 1 ≤ 1 →
      cgol_get_next (generate_next_matrix blockGame) 1 1 = DEAD_CELL) ∧
    (cgol_get blockGame 1 1 = LIVE_CELL ∧ cgol_adjacent blockGame 1 1 ≥ 4 →
      cgol_get_next (generate_next_matrix blockGame) 1 1 = DEAD_CELL) ∧
    (cgol_get blockGame 1 1 = LIVE_CELL ∧
        (cgol_adjacent blockGame 1 1 = 2 ∨ cgol_adjacent blockGame 1 1 = 3) →
      cgol_get_next (generate_next_matrix blockGame) 1 1 = LIVE_CELL) ∧
    (cgol_get blockGame 1 1 = DEAD_CELL ∧ cgol_adjacent blockGame 1 1 = 3 →
      cgol_get_next (generate_next_matrix blockGame) 1 1 = LIVE_CELL)) :=
  ⟨blockGame_binary, blockGame_interior,
    generate_next_matrix_rules blockGame 1 1 blockGame_binary blockGame_interior⟩

/-- Claim C5. For a cell whose eight neighbours lie inside the grid,
cgol_adjacent equals the number of the eight surrounding cells that hold
LIVE_CELL in the current grid, does not depend on the value of the cell itself,
and lies between 0 and 8. -/
theorem cgol_adjacent_counts_live_neighbours (g : CGOL) (row col : Int)
    (hint : Interior g row col) :
    cgol_adjacent g row col = (liveNeighbourCount g row col : Int) ∧
    (∀ v : Int, cgol_adjacent (cgol_set g row col v) row col = cgol_adjacent g row col) ∧
    0 ≤ cgol_adjacent g row col ∧ cgol_adjacent g row col ≤ 8 :=
  ⟨cgol_adjacent_eq_count g row col, fun v => cgol_adjacent_set_self g row col v hint,
    cgol_adjacent_bounds g row col⟩

theorem cgol_adjacent_counts_live_neighbours_witness :
    Interior blockGame 1 1 ∧
    (cgol_adjacent blockGame 1 1 = (liveNeighbourCount blockGame 1 1 : Int) ∧
    (∀ v : Int, cgol_adjacent (cgol_set blockGame 1 1 v) 1 1 = cgol_adjacent blockGame 1 1) ∧
    0 ≤ cgol_adjacent blockGame 1 1 ∧ cgol_adjacent blockGame 1 1 ≤ 8) :=
  ⟨blockGame_interior, cgol_adjacent_counts_live_neighbours blockGame 1 1 blockGame_interior⟩

/-- Claim C6. For a cell whose eight neighbours lie inside the grid, Dead in
the current grid and with a live-neighbour count other than 3,
generate_next_matrix leaves the scratch cell as it was; a scratch cell that was
Live is still Live. -/
theorem generate_next_matrix_keeps_stale_cell (g : CGOL) (row col : Int)
    (hint : Interior g row col) (hdead : cgol_get g row col = DEAD_CELL)
    (hn : cgol_adjacent g row col ≠ 3) :
    cgol_get_next (generate_next_matrix g) row col = cgol_get_next g row col ∧
    (cgol_get_next g row col = LIVE_CELL →
      cgol_get_next (generate_next_matrix g) row col = LIVE_CELL) := by
  have key : cgol_get_next (generate_next_matrix g) row col = cgol_get_next g row col := by
    rw [generate_next_matrix_cell g row col hint.inGrid]
    unfold nextCellValue cellWrite cgol_get_next
    simp [hdead, hn]
  exact ⟨key, fun h => key.trans h⟩

theorem generate_next_matrix_keeps_stale_cell_witness :
    Interior staleGame 1 1 ∧ cgol_get staleGame 1 1 = DEAD_CELL ∧
    cgol_adjacent staleGame 1 1 ≠ 3 ∧
    (cgol_get_next (generate_next_matrix staleGame) 1 1 = cgol_get_next staleGame 1 1 ∧
    (cgol_get_next staleGame 1 1 = LIVE_CELL →
      cgol_get_next (generate_next_matrix staleGame) 1 1 = LIVE_CELL)) :=
  ⟨staleGame_interior, by rfl, by decide,
    generate_next_matrix_keeps_stale_cell staleGame 1 1 staleGame_interior (by rfl) (by decide)⟩

/-- Claim C9. The call generate_next_matrix leaves the current grid, rows, cols,
the countdown and the paused flag unchanged, and running its loop body over the
grid cells in any other order gives the same state. -/
theorem generate_next_matrix_frame_and_order (g : CGOL) (l : List (Int × Int))
    (hl : l.Perm (gridCells g.rows.toNat g.cols.toNat)) :
    (generate_next_matrix g).game_matrix = g.game_matrix ∧
    (generate_next_matrix g).rows = g.rows ∧
    (generate_next_matrix g).cols = g.cols ∧
    (generate_next_matrix g).tick_delay = g.tick_delay ∧
    (generate_next_matrix g).paused = g.paused ∧
    generate_next_in_order l g = generate_next_matrix g := by
  obtain ⟨h1, h2, h3, h4, h5⟩ := generate_next_matrix_frame g
  refine ⟨h3, h1, h2, h4, h5, ?_⟩
  rw [generate_next_matrix_eq_visit]
  exact visit_generate_order g l _
    (fun q => (hl.mem_iff).trans (mem_gridCells_toNat g q)) (mem_gridCells_toNat g)

theorem generate_next_matrix_frame_and_order_witness :
    (gridCells 4 4).reverse.Perm (gridCells blockGame.rows.toNat blockGame.cols.toNat) ∧
    ((generate_next_matrix blockGame).game_matrix = blockGame.game_matrix ∧
    (generate_next_matrix blockGame).rows = blockGame.rows ∧
    (generate_next_matrix blockGame).cols = blockGame.cols ∧
    (generate_next_matrix blockGame).tick_delay = blockGame.tick_delay ∧
    (generate_next_matrix blockGame).paused = blockGame.paused ∧
    generate_next_in_order (gridCells 4 4).reverse blockGame = generate_next_matrix blockGame) :=
  ⟨List.reverse_perm _,
    generate_next_matrix_frame_and_order blockGame _ (List.reverse_perm _)⟩

/-- Claim C3. Whatever the scratch grid holds, for a cell whose eight neighbours
lie inside the grid and n its number of Live neighbours in the current grid
before the call, after refresh_matrix the current cell is Dead if it was Live
with n <= 1, Dead if it was Live with n >= 4, and Live if it was Dead with
n = 3; n is counted on the grid as it was before the call. -/
theorem refresh_matrix_rules (g : CGOL) (row col : Int) (hint : Interior g row col) :
    (cgol_get g row col = LIVE_CELL ∧ liveNeighbourCount g row col ≤ 1 →
      cgol_get (refresh_matrix g) row col = DEAD_CELL) ∧
    (cgol_get g row col = LIVE_CELL ∧ liveNeighbourCount g row col ≥ 4 →
      cgol_get (refresh_matrix g) row col = DEAD_CELL) ∧
    (cgol_get g row col = DEAD_CELL ∧ liveNeighbourCount g row col = 3 →
      cgol_get (refresh_matrix g) row col = LIVE_CELL) := by
  rw [refresh_matrix_cell_value g row col hint.inGrid]
  unfold nextCellValue cellWrite
  rw [cgol_adjacent_eq_count]
  refine ⟨?_, ?_, ?_⟩
  · rintro ⟨h1, h2⟩
    have h3 : (liveNeighbourCount g row col : Int) ≤ 1 := by exact_mod_cast h2
    simp [h1, h3]
  · rintro ⟨h1, h2⟩
    have h3 : ¬ (liveNeighbourCount g row col : Int) ≤ 1 := by omega
    have h4 : (liveNeighbourCount g row col : Int) ≥ 4 := by omega
    simp [h1, h3, h4]
  · rintro ⟨h1, h2⟩
    simp [h1, h2]

theorem refresh_matrix_rules_witness :
    (Interior loneCellGame 1 1 ∧
      (cgol_get loneCellGame 1 1 = LIVE_CELL ∧ liveNeighbourCount loneCellGame 1 1 ≤ 1) ∧
      liveNeighbourCount loneCellGame 1 1 = 0 ∧
      cgol_get_next loneCellGame 1 1 = LIVE_CELL ∧
      cgol_get (refresh_matrix loneCellGame) 1 1 = DEAD_CELL) ∧
    (Interior crowdedGame 1 1 ∧
      (cgol_get crowdedGame 1 1 = LIVE_CELL ∧ liveNeighbourCount crowdedGame 1 1 ≥ 4) ∧
      liveNeighbourCount crowdedGame 1 1 = 4 ∧
      cgol_get_next crowdedGame 1 1 = LIVE_CELL ∧
      cgol_get (refresh_matrix crowdedGame) 1 1 = DEAD_CELL) ∧
    (Interior birthGame 1 1 ∧
      (cgol_get birthGame 1 1 = DEAD_CELL ∧ liveNeighbourCount birthGame 1 1 = 3) ∧
      cgol_get_next birthGame 1 1 = DEAD_CELL ∧
      cgol_get (refresh_matrix birthGame) 1 1 = LIVE_CELL) :=
  ⟨⟨by unfold Interior; decide, ⟨rfl, by decide⟩, by decide, rfl,
      (refresh_matrix_rules loneCellGame 1 1 (by unfold Interior; decide)).1
        ⟨rfl, by decide⟩⟩,
    ⟨by unfold Interior; decide, ⟨rfl, by decide⟩, by decide, rfl,
      (refresh_matrix_rules crowdedGame 1 1 (by unfold Interior; decide)).2.1
        ⟨rfl, by decide⟩⟩,
    ⟨by unfold Interior; decide, ⟨rfl, by decide⟩, rfl,
      (refresh_matrix_rules birthGame 1 1 (by unfold Interior; decide)).2.2
        ⟨rfl, by decide⟩⟩⟩

/-- Claim C7. After refresh_matrix the scratch grid is the one
generate_next_matrix produced from the state before the call, and the current
grid equals that scratch grid at every in-grid coordinate. -/
theorem refresh_matrix_copies_scratch (g : CGOL) (row col : Int) (h : InGrid g row col) :
    (refresh_matrix g).next_matrix = (generate_next_matrix g).next_matrix ∧
    cgol_get (refresh_matrix g) row col = cgol_get_next (refresh_matrix g) row col ∧
    cgol_get (refresh_matrix g) row col = cgol_get_next (generate_next_matrix g) row col := by
  have hf := refresh_matrix_frame g
  have hg := generate_next_matrix_frame g
  refine ⟨hf.2.2.1, ?_, refresh_matrix_cell g row col h⟩
  rw [refresh_matrix_cell g row col h]
  unfold cgol_get_next
  rw [hf.2.2.1, hf.2.1, hg.2.1]

theorem refresh_matrix_copies_scratch_witness :
    InGrid blockGame 0 3 ∧
    ((refresh_matrix blockGame).next_matrix = (generate_next_matrix blockGame).next_matrix ∧
    cgol_get (refresh_matrix blockGame) 0 3 = cgol_get_next (refresh_matrix blockGame) 0 3 ∧
    cgol_get (refresh_matrix blockGame) 0 3
      = cgol_get_next (generate_next_matrix blockGame) 0 3) :=
  ⟨by unfold InGrid blockGame; simp,
    refresh_matrix_copies_scratch blockGame 0 3 (by unfold InGrid blockGame; simp)⟩

/-- Claim C4. With N = TICK_DELAY >= 1 and the countdown at N, N - 1 calls of
tick (and any smaller number of calls) leave both grids unchanged; N calls
leave the grids of exactly one refresh_matrix of the initial state, with the
countdown at N again. -/
theorem tick_advances_once_per_tick_delay (N : Int) (hN : 1 ≤ N) (g : CGOL)
    (hg : g.tick_delay = N) :
    ((tick N)^[(N - 1).toNat] g).game_matrix = g.game_matrix ∧
    ((tick N)^[(N - 1).toNat] g).next_matrix = g.next_matrix ∧
    (∀ k : Nat, (k : Int) < N →
      ((tick N)^[k] g).game_matrix = g.game_matrix ∧
      ((tick N)^[k] g).next_matrix = g.next_matrix) ∧
    ((tick N)^[N.toNat] g).game_matrix = (refresh_matrix g).game_matrix ∧
    ((tick N)^[N.toNat] g).next_matrix = (refresh_matrix g).next_matrix ∧
    ((tick N)^[N.toNat] g).tick_delay = N := by
  have hk : ∀ k : Nat, (k : Int) < N →
      ((tick N)^[k] g).game_matrix = g.game_matrix ∧
      ((tick N)^[k] g).next_matrix = g.next_matrix := by
    intro k hk
    rw [tick_iterate_of_lt N g k (by omega)]
    exact ⟨rfl, rfl⟩
  have hfull := tick_iterate_full N g (by omega)
  rw [hg] at hfull
  refine ⟨(hk _ (by omega)).1, (hk _ (by omega)).2, hk, ?_, ?_, ?_⟩ <;> rw [hfull]

theorem tick_advances_once_per_tick_delay_witness :
    1 ≤ TICK_DELAY ∧ blockGame.tick_delay = TICK_DELAY ∧
    (((tick TICK_DELAY)^[(TICK_DELAY - 1).toNat] blockGame).game_matrix
      = blockGame.game_matrix ∧
    ((tick TICK_DELAY)^[(TICK_DELAY - 1).toNat] blockGame).next_matrix
      = blockGame.next_matrix ∧
    (∀ k : Nat, (k : Int) < TICK_DELAY →
      ((tick TICK_DELAY)^[k] blockGame).game_matrix = blockGame.game_matrix ∧
      ((tick TICK_DELAY)^[k] blockGame).next_matrix = blockGame.next_matrix) ∧
    ((tick TICK_DELAY)^[TICK_DELAY.toNat] blockGame).game_matrix
      = (refresh_matrix blockGame).game_matrix ∧
    ((tick TICK_DELAY)^[TICK_DELAY.toNat] blockGame).next_matrix
      = (refresh_matrix blockGame).next_matrix ∧
    ((tick TICK_DELAY)^[TICK_DELAY.toNat] blockGame).tick_delay = TICK_DELAY) :=
  ⟨by decide, rfl, tick_advances_once_per_tick_delay TICK_DELAY (by decide) blockGame rfl⟩

/-- Claim C10. For an in-range cell and any value v of the char parameter,
after cgol_set the cell reads v through cgol_get, every other in-range cell of
the current grid and the whole scratch grid are unchanged; likewise for
cgol_set_next and cgol_get_next with the current grid unchanged. Nothing else
of the state changes. -/
theorem cgol_set_get_roundtrip (g : CGOL) (row col v : Int) (h : InGrid g row col)
    (hv : InCharRange v) :
    (cgol_get (cgol_set g row col v) row col = v ∧
      (∀ r c : Int, InGrid g r c → (r, c) ≠ (row, col) →
        cgol_get (cgol_set g row col v) r c = cgol_get g r c) ∧
      SameExceptGame (cgol_set g row col v) g) ∧
    (cgol_get_next (cgol_set_next g row col v) row col = v ∧
      (∀ r c : Int, InGrid g r c → (r, c) ≠ (row, col) →
        cgol_get_next (cgol_set_next g row col v) r c = cgol_get_next g r c) ∧
      SameExceptNext (cgol_set_next g row col v) g) := by
  have _ := hv
  exact ⟨⟨cgol_get_set_self g row col v,
      fun r c h2 hne => cgol_get_set_of_ne g row col v r c (index_ne_of_ne g row col r c h h2 hne),
      ⟨rfl, rfl, rfl, rfl, rfl⟩⟩,
    ⟨cgol_get_next_set_next_self g row col v,
      fun r c h2 hne =>
        cgol_get_next_set_next_of_ne g row col v r c (index_ne_of_ne g row col r c h h2 hne),
      ⟨rfl, rfl, rfl, rfl, rfl⟩⟩⟩

theorem cgol_set_get_roundtrip_witness :
    InGrid blockGame 1 2 ∧ InCharRange (-7) ∧
    ((cgol_get (cgol_set blockGame 1 2 (-7)) 1 2 = -7 ∧
      (∀ r c : Int, InGrid blockGame r c → (r, c) ≠ (1, 2) →
        cgol_get (cgol_set blockGame 1 2 (-7)) r c = cgol_get blockGame r c) ∧
      SameExceptGame (cgol_set blockGame 1 2 (-7)) blockGame) ∧
    (cgol_get_next (cgol_set_next blockGame 1 2 (-7)) 1 2 = -7 ∧
      (∀ r c : Int, InGrid blockGame r c → (r, c) ≠ (1, 2) →
        cgol_get_next (cgol_set_next blockGame 1 2 (-7)) r c = cgol_get_next blockGame r c) ∧
      SameExceptNext (cgol_set_next blockGame 1 2 (-7)) blockGame)) :=
  ⟨by unfold InGrid blockGame; simp, by unfold InCharRange; decide,
    cgol_set_get_roundtrip blockGame 1 2 (-7) (by unfold InGrid blockGame; simp)
      (by unfold InCharRange; decide)⟩

/-- Claim C8. Every cell is always Dead or Live: right after cgol_create every
cell of both grids is 0 or 1; if that holds before cgol_populate,
cgol_erase_matrix, generate_next_matrix, refresh_matrix or tick, it holds
after; so every state these operations reach from cgol_create has it. -/
theorem cells_stay_dead_or_live (RAND_MAX tickDelay : Int) (mem1 mem2 : Int → Int)
    (rand : Nat → Int) (rows cols : Int) (g : CGOL) (h : CellsBinary g) :
    CellsBinary (cgol_create tickDelay mem1 mem2 RAND_MAX rand rows cols) ∧
    CellsBinary (cgol_populate RAND_MAX rand g) ∧
    CellsBinary (cgol_erase_matrix g) ∧
    CellsBinary (generate_next_matrix g) ∧
    CellsBinary (refresh_matrix g) ∧
    CellsBinary (tick tickDelay g) ∧
    (∀ s : CGOL, ReachableByOps RAND_MAX s → CellsBinary s) := by
  refine ⟨cgol_create_binary _ _ _ _ _ _ _, cgol_populate_binary _ _ g h,
    cgol_erase_matrix_binary g, generate_next_matrix_binary g h, refresh_matrix_binary g h,
    tick_binary _ g h, ?_⟩
  intro s hs
  induction hs with
  | create tickDelay mem1 mem2 rand rows cols => exact cgol_create_binary _ _ _ _ _ _ _
  | populate rand g _ ih => exact cgol_populate_binary _ _ g ih
  | erase g _ _ => exact cgol_erase_matrix_binary g
  | generate g _ ih => exact generate_next_matrix_binary g ih
  | refresh g _ ih => exact refresh_matrix_binary g ih
  | tick tickDelay g _ ih => exact tick_binary _ g ih

theorem cells_stay_dead_or_live_witness :
    CellsBinary blockGame ∧
    (CellsBinary (cgol_create TICK_DELAY (fun _ => 5) (fun _ => 5) 2147483647
      (fun k => (k : Int)) 4 4) ∧
    CellsBinary (cgol_populate 2147483647 (fun k => (k : Int)) blockGame) ∧
    CellsBinary (cgol_erase_matrix blockGame) ∧
    CellsBinary (generate_next_matrix blockGame) ∧
    CellsBinary (refresh_matrix blockGame) ∧
    CellsBinary (tick TICK_DELAY blockGame) ∧
    (∀ s : CGOL, ReachableByOps 2147483647 s → CellsBinary s)) :=
  ⟨blockGame_binary,
    cells_stay_dead_or_live 2147483647 TICK_DELAY (fun _ => 5) (fun _ => 5)
      (fun k => (k : Int)) 4 4 blockGame blockGame_binary⟩

/-- Claim C2, evaluated where it fails. The state staleBlockGame has a current
grid that is a 2 by 2 block away from the border with every other cell and
every byte outside the buffer Dead, and a scratch grid that is all Live. The
cell (3, 3), whose eight neighbours lie inside the grid, is Dead with one live
neighbour before refresh_matrix and Live after it, while the claim has every
cell unchanged. -/
theorem refresh_matrix_block_with_stale_scratch :
    IsBlock staleBlockGame 1 1 ∧
    Interior staleBlockGame 3 3 ∧
    cgol_get staleBlockGame 3 3 = DEAD_CELL ∧
    cgol_adjacent staleBlockGame 3 3 = 1 ∧
    cgol_get (refresh_matrix staleBlockGame) 3 3 = LIVE_CELL := by
  refine ⟨⟨by decide, by decide, by decide, by decide, fun i => ?_⟩,
    by unfold Interior; decide, rfl, by decide, ?_⟩
  · simp [staleBlockGame]
  · rw [refresh_matrix_cell_value staleBlockGame 3 3 (by unfold InGrid; decide)]
    decide

/-! ## Later claims: erase, paused flag, purity -/

theorem generate_next_cell_paused (y x : Int) (b : Bool) (g : CGOL) :
    generate_next_cell y x { g with paused := b }
      = { generate_next_cell y x g with paused := b } := by
  rw [generate_next_cell_eq, generate_next_cell_eq,
    cellWrite_congr g { g with paused := b } rfl rfl]
  cases cellWrite g y x <;> rfl

theorem generate_next_matrix_paused (b : Bool) (g : CGOL) :
    generate_next_matrix { g with paused := b }
      = { generate_next_matrix g with paused := b } := by
  unfold generate_next_matrix
  refine forLoop_comm (fun s : CGOL => { s with paused := b }) g.rows.toNat
    (fun y game => forLoop game.cols.toNat (fun x game => generate_next_cell y x game) game)
    ?_ g
  intro y s
  exact forLoop_comm (fun s : CGOL => { s with paused := b }) s.cols.toNat
    (fun x game => generate_next_cell y x game)
    (fun x s => generate_next_cell_paused y x b s) s

/-- The paused flag plays no part in refresh_matrix. -/
theorem refresh_matrix_paused (b : Bool) (g : CGOL) :
    refresh_matrix { g with paused := b } = { refresh_matrix g with paused := b } := by
  unfold refresh_matrix
  simp only
  rw [generate_next_matrix_paused]
  refine forLoop_comm (fun s : CGOL => { s with paused := b })
    (generate_next_matrix g).rows.toNat
    (fun y game => forLoop game.cols.toNat (fun x game => refresh_cell y x game) game)
    ?_ (generate_next_matrix g)
  intro y s
  exact forLoop_comm (fun s : CGOL => { s with paused := b }) s.cols.toNat
    (fun x game => refresh_cell y x game) (fun x s => rfl) s

/-- Setting the paused flag before tick or after it gives the same state. -/
theorem tick_paused (N : Int) (b : Bool) (g : CGOL) :
    tick N { g with paused := b } = { tick N g with paused := b } := by
  by_cases hd : 1 < g.tick_delay
  · rw [tick_of_gt N g hd, tick_of_gt N { g with paused := b } hd]
  · rw [tick_of_le N g (by omega), tick_of_le N { g with paused := b } (by show g.tick_delay ≤ 1; omega),
      refresh_matrix_paused]

theorem tick_keeps_paused (N : Int) (g : CGOL) : (tick N g).paused = g.paused := by
  by_cases hd : 1 < g.tick_delay
  · rw [tick_of_gt N g hd]
  · rw [tick_of_le N g (by omega)]
    exact (refresh_matrix_frame g).2.2.2.2

/-- Claim C11. After cgol_erase_matrix every cell of the current grid and of
the scratch grid is Dead (every in-grid cell, and every byte of both buffers),
while rows, cols, the countdown and the paused flag are unchanged. -/
theorem cgol_erase_matrix_clears (g : CGOL) (row col : Int) (h : InGrid g row col) :
    cgol_get (cgol_erase_matrix g) row col = DEAD_CELL ∧
    cgol_get_next (cgol_erase_matrix g) row col = DEAD_CELL ∧
    (∀ i : Int, 0 ≤ i → i < g.rows * g.cols →
      (cgol_erase_matrix g).game_matrix i = DEAD_CELL ∧
      (cgol_erase_matrix g).next_matrix i = DEAD_CELL) ∧
    (cgol_erase_matrix g).rows = g.rows ∧
    (cgol_erase_matrix g).cols = g.cols ∧
    (cgol_erase_matrix g).tick_delay = g.tick_delay ∧
    (cgol_erase_matrix g).paused = g.paused := by
  have hb := index_in_buffer g row col h
  refine ⟨?_, ?_, ?_, rfl, rfl, rfl, rfl⟩
  · simp [cgol_get, cgol_erase_matrix, memset, hb]
  · simp [cgol_get_next, cgol_erase_matrix, memset, hb]
  · intro i h0 h1
    simp [cgol_erase_matrix, memset, h0, h1]

theorem cgol_erase_matrix_clears_witness :
    InGrid staleBlockGame 1 1 ∧
    (cgol_get (cgol_erase_matrix staleBlockGame) 1 1 = DEAD_CELL ∧
    cgol_get_next (cgol_erase_matrix staleBlockGame) 1 1 = DEAD_CELL ∧
    (∀ i : Int, 0 ≤ i → i < staleBlockGame.rows * staleBlockGame.cols →
      (cgol_erase_matrix staleBlockGame).game_matrix i = DEAD_CELL ∧
      (cgol_erase_matrix staleBlockGame).next_matrix i = DEAD_CELL) ∧
    (cgol_erase_matrix staleBlockGame).rows = staleBlockGame.rows ∧
    (cgol_erase_matrix staleBlockGame).cols = staleBlockGame.cols ∧
    (cgol_erase_matrix staleBlockGame).tick_delay = staleBlockGame.tick_delay ∧
    (cgol_erase_matrix staleBlockGame).paused = staleBlockGame.paused) :=
  ⟨by unfold InGrid; decide,
    cgol_erase_matrix_clears staleBlockGame 1 1 (by unfold InGrid; decide)⟩

/-- Claim C12. The function tick never consults the paused flag: two states
that differ only in paused are taken by tick to states with the same grids and
the same countdown, and tick leaves paused itself unchanged. -/
theorem tick_ignores_paused (N : Int) (g1 g2 : CGOL)
    (hr : g1.rows = g2.rows) (hc : g1.cols = g2.cols)
    (hg : g1.game_matrix = g2.game_matrix) (hn : g1.next_matrix = g2.next_matrix)
    (ht : g1.tick_delay = g2.tick_delay) :
    (tick N g1).game_matrix = (tick N g2).game_matrix ∧
    (tick N g1).next_matrix = (tick N g2).next_matrix ∧
    (tick N g1).tick_delay = (tick N g2).tick_delay ∧
    (tick N g1).rows = (tick N g2).rows ∧
    (tick N g1).cols = (tick N g2).cols ∧
    (tick N g1).paused = g1.paused ∧
    (tick N g2).paused = g2.paused := by
  have e : g1 = { g2 with paused := g1.paused } := by
    cases g1; cases g2
    simp only at hr hc hg hn ht
    subst hr hc hg hn ht
    rfl
  refine ⟨?_, ?_, ?_, ?_, ?_, tick_keeps_paused N g1, tick_keeps_paused N g2⟩ <;>
    rw [e, tick_paused]

theorem tick_ignores_paused_witness :
    blockGame.rows = { blockGame with paused := true }.rows ∧
    blockGame.cols = { blockGame with paused := true }.cols ∧
    blockGame.game_matrix = { blockGame with paused := true }.game_matrix ∧
    blockGame.next_matrix = { blockGame with paused := true }.next_matrix ∧
    blockGame.tick_delay = { blockGame with paused := true }.tick_delay ∧
    ((tick 1 blockGame).game_matrix = (tick 1 { blockGame with paused := true }).game_matrix ∧
    (tick 1 blockGame).next_matrix = (tick 1 { blockGame with paused := true }).next_matrix ∧
    (tick 1 blockGame).tick_delay = (tick 1 { blockGame with paused := true }).tick_delay ∧
    (tick 1 blockGame).rows = (tick 1 { blockGame with paused := true }).rows ∧
    (tick 1 blockGame).cols = (tick 1 { blockGame with paused := true }).cols ∧
    (tick 1 blockGame).paused = blockGame.paused ∧
    (tick 1 { blockGame with paused := true }).paused
      = { blockGame with paused := true }.paused) :=
  ⟨rfl, rfl, rfl, rfl, rfl,
    tick_ignores_paused 1 blockGame { blockGame with paused := true } rfl rfl rfl rfl rfl⟩

theorem cgol_adjacent_congr_interior (g1 g2 : CGOL) (hc : g1.cols = g2.cols)
    (hr : g1.rows = g2.rows)
    (hag : ∀ row col : Int, InGrid g1 row col → cgol_get g1 row col = cgol_get g2 row col)
    (row col : Int) (h : Interior g1 row col) :
    cgol_adjacent g1 row col = cgol_adjacent g2 row col := by
  have _ := hc
  have _ := hr
  unfold Interior at h
  have hn : ∀ dy dx : Int, -1 ≤ dy ∧ dy ≤ 1 → -1 ≤ dx ∧ dx ≤ 1 →
      cgol_get g1 (row + dy) (col + dx) = cgol_get g2 (row + dy) (col + dx) := by
    intro dy dx h1 h2
    apply hag
    unfold InGrid
    omega
  rw [cgol_adjacent_unfold, cgol_adjacent_unfold]
  rw [hn (-1) (-1) (by omega) (by omega), hn (-1) 0 (by omega) (by omega),
    hn (-1) 1 (by omega) (by omega), hn 0 (-1) (by omega) (by omega),
    hn 0 1 (by omega) (by omega), hn 1 (-1) (by omega) (by omega),
    hn 1 0 (by omega) (by omega), hn 1 1 (by omega) (by omega)]

/-- Every offset of the buffer is the linear index of an in-grid cell. -/
theorem buffer_offset_is_cell (g : CGOL) (i : Int) (hc : 0 < g.cols) (h0 : 0 ≤ i)
    (h1 : i < g.rows * g.cols) :
    InGrid g (i / g.cols) (i % g.cols) ∧ g.cols * (i / g.cols) + i % g.cols = i := by
  refine ⟨⟨Int.ediv_nonneg h0 (by omega), ?_, Int.emod_nonneg i (by omega),
    Int.emod_lt_of_pos i hc⟩, Int.ediv_add_emod i g.cols⟩
  exact Int.ediv_lt_of_lt_mul hc h1

/-- Two states whose buffers agree on the nine offsets around a cell take the
same branch of the chain there. -/
theorem cellWrite_congr_reads (g1 g2 : CGOL) (hc : g1.cols = g2.cols) (row col : Int)
    (hpos : 0 ≤ g1.cols)
    (h : ∀ i : Int, g1.cols * row + col - g1.cols - 1 ≤ i →
      i ≤ g1.cols * row + col + g1.cols + 1 → g1.game_matrix i = g2.game_matrix i) :
    cellWrite g1 row col = cellWrite g2 row col := by
  have e1 : g1.cols * (row + -1) + (col + -1) = g1.cols * row + col - g1.cols - 1 := by ring
  have e2 : g1.cols * (row + -1) + (col + 0) = g1.cols * row + col - g1.cols := by ring
  have e3 : g1.cols * (row + -1) + (col + 1) = g1.cols * row + col - g1.cols + 1 := by ring
  have e4 : g1.cols * (row + 0) + (col + -1) = g1.cols * row + col - 1 := by ring
  have e5 : g1.cols * (row + 0) + (col + 1) = g1.cols * row + col + 1 := by ring
  have e6 : g1.cols * (row + 1) + (col + -1) = g1.cols * row + col + g1.cols - 1 := by ring
  have e7 : g1.cols * (row + 1) + (col + 0) = g1.cols * row + col + g1.cols := by ring
  have e8 : g1.cols * (row + 1) + (col + 1) = g1.cols * row + col + g1.cols + 1 := by ring
  unfold cellWrite
  rw [cgol_adjacent_unfold, cgol_adjacent_unfold]
  unfold cgol_get
  rw [← hc, e1, e2, e3, e4, e5, e6, e7, e8,
    ← h (g1.cols * row + col) (by omega) (by omega),
    ← h (g1.cols * row + col - g1.cols - 1) (by omega) (by omega),
    ← h (g1.cols * row + col - g1.cols) (by omega) (by omega),
    ← h (g1.cols * row + col - g1.cols + 1) (by omega) (by omega),
    ← h (g1.cols * row + col - 1) (by omega) (by omega),
    ← h (g1.cols * row + col + 1) (by omega) (by omega),
    ← h (g1.cols * row + col + g1.cols - 1) (by omega) (by omega),
    ← h (g1.cols * row + col + g1.cols) (by omega) (by omega),
    ← h (g1.cols * row + col + g1.cols + 1) (by omega) (by omega)]

/-- Claim C13, refuted. The two 3 by 3 states oobLiveGame and oobDeadGame have
the same dimensions, the same current grid (every in-grid cell Dead) and an
all-Dead scratch grid, and differ only in three bytes in front of the buffer;
the corner cell (0, 0) reads those bytes as its upper neighbours, so its
scratch cell becomes Live in the one state and stays Dead in the other. -/
theorem generate_next_matrix_reads_bytes_outside_grid :
    oobLiveGame.rows = oobDeadGame.rows ∧ oobLiveGame.cols = oobDeadGame.cols ∧
    (∀ row col : Int, InGrid oobLiveGame row col →
      cgol_get oobLiveGame row col = cgol_get oobDeadGame row col) ∧
    (∀ row col : Int, InGrid oobLiveGame row col →
      cgol_get_next oobLiveGame row col = DEAD_CELL) ∧
    (∀ row col : Int, InGrid oobDeadGame row col →
      cgol_get_next oobDeadGame row col = DEAD_CELL) ∧
    InGrid oobLiveGame 0 0 ∧
    cgol_adjacent oobLiveGame 0 0 = 3 ∧ cgol_adjacent oobDeadGame 0 0 = 0 ∧
    cgol_get_next (generate_next_matrix oobLiveGame) 0 0 = LIVE_CELL ∧
    cgol_get_next (generate_next_matrix oobDeadGame) 0 0 = DEAD_CELL ∧
    ¬ (∀ row col : Int, InGrid oobLiveGame row col →
      cgol_get_next (generate_next_matrix oobLiveGame) row col
        = cgol_get_next (generate_next_matrix oobDeadGame) row col) := by
  have hin : InGrid oobLiveGame 0 0 := by unfold InGrid; decide
  have hin2 : InGrid oobDeadGame 0 0 := by unfold InGrid; decide
  have hl : cgol_get_next (generate_next_matrix oobLiveGame) 0 0 = LIVE_CELL := by
    rw [generate_next_matrix_cell oobLiveGame 0 0 hin]
    decide
  have hd : cgol_get_next (generate_next_matrix oobDeadGame) 0 0 = DEAD_CELL := by
    rw [generate_next_matrix_cell oobDeadGame 0 0 hin2]
    decide
  refine ⟨rfl, rfl, ?_, fun _ _ _ => rfl, fun _ _ _ => rfl, hin, by decide, by decide,
    hl, hd, ?_⟩
  · intro row col h
    simp only [InGrid, oobLiveGame] at h
    have h4 : ¬ (3 * row + col = -4 ∨ 3 * row + col = -3 ∨ 3 * row + col = -2) := by omega
    simp only [cgol_get, oobLiveGame, oobDeadGame]
    rw [if_neg h4]
  · intro hall
    have := hall 0 0 hin
    rw [hl, hd] at this
    exact absurd this (by decide)

/-- Claim C13, amended. Two states with the same dimensions and the same
current grid, both with an all-Dead scratch grid, get identical scratch cells
from generate_next_matrix at every cell whose eight neighbours lie inside the
grid, and identical scratch grids altogether when their buffers also hold the
same bytes at the offsets outside the buffer that the unchecked neighbour reads
reach; the countdown and the paused flag play no part. -/
theorem generate_next_matrix_pure (g1 g2 : CGOL)
    (hr : g1.rows = g2.rows) (hc : g1.cols = g2.cols)
    (hag : ∀ row col : Int, InGrid g1 row col → cgol_get g1 row col = cgol_get g2 row col)
    (hd1 : ∀ row col : Int, InGrid g1 row col → cgol_get_next g1 row col = DEAD_CELL)
    (hd2 : ∀ row col : Int, InGrid g2 row col → cgol_get_next g2 row col = DEAD_CELL) :
    (∀ row col : Int, Interior g1 row col →
      cgol_get_next (generate_next_matrix g1) row col
        = cgol_get_next (generate_next_matrix g2) row col) ∧
    (SameBytesAroundBuffer g1 g2 →
      ∀ row col : Int, InGrid g1 row col →
        cgol_get_next (generate_next_matrix g1) row col
          = cgol_get_next (generate_next_matrix g2) row col) := by
  have hin2 : ∀ row col : Int, InGrid g1 row col → InGrid g2 row col := by
    intro row col h
    unfold InGrid at h ⊢
    rw [← hr, ← hc]
    exact h
  constructor
  · intro row col hint
    have h1 := hint.inGrid
    have h2 := hin2 row col h1
    rw [generate_next_matrix_cell g1 row col h1, generate_next_matrix_cell g2 row col h2]
    have e1 := hd1 row col h1
    have e2 := hd2 row col h2
    unfold cgol_get_next at e1 e2
    unfold nextCellValue cellWrite
    rw [cgol_adjacent_congr_interior g1 g2 hc hr hag row col hint, hag row col h1, e1, e2]
  · intro hout row col h1
    have h2 := hin2 row col h1
    have hcpos : 0 < g1.cols := by unfold InGrid at h1; omega
    have hb := index_in_buffer g1 row col h1
    have hall : ∀ i : Int, -g1.cols - 1 ≤ i → i ≤ g1.rows * g1.cols + g1.cols →
        g1.game_matrix i = g2.game_matrix i := by
      intro i hlo hhi
      by_cases hi : 0 ≤ i ∧ i < g1.rows * g1.cols
      · obtain ⟨hcell, hidx⟩ := buffer_offset_is_cell g1 i hcpos hi.1 hi.2
        have := hag _ _ hcell
        unfold cgol_get at this
        rw [← hc, hidx] at this
        exact this
      · exact hout i (by omega)
    rw [generate_next_matrix_cell g1 row col h1, generate_next_matrix_cell g2 row col h2]
    have e1 := hd1 row col h1
    have e2 := hd2 row col h2
    unfold cgol_get_next at e1 e2
    unfold nextCellValue
    rw [cellWrite_congr_reads g1 g2 hc row col (by omega)
      (fun i hlo hhi => hall i (by omega) (by omega)), e1, e2]

theorem generate_next_matrix_pure_witness :
    blockGame.rows = pausedBlockGame.rows ∧ blockGame.cols = pausedBlockGame.cols ∧
    (∀ row col : Int, InGrid blockGame row col →
      cgol_get blockGame row col = cgol_get pausedBlockGame row col) ∧
    (∀ row col : Int, InGrid blockGame row col →
      cgol_get_next blockGame row col = DEAD_CELL) ∧
    (∀ row col : Int, InGrid pausedBlockGame row col →
      cgol_get_next pausedBlockGame row col = DEAD_CELL) ∧
    blockGame.game_matrix 1000 ≠ pausedBlockGame.game_matrix 1000 ∧
    blockGame.tick_delay ≠ pausedBlockGame.tick_delay ∧
    blockGame.paused ≠ pausedBlockGame.paused ∧
    ((∀ row col : Int, Interior blockGame row col →
      cgol_get_next (generate_next_matrix blockGame) row col
        = cgol_get_next (generate_next_matrix pausedBlockGame) row col) ∧
    (SameBytesAroundBuffer blockGame pausedBlockGame →
      ∀ row col : Int, InGrid blockGame row col →
        cgol_get_next (generate_next_matrix blockGame) row col
          = cgol_get_next (generate_next_matrix pausedBlockGame) row col)) ∧
    SameBytesAroundBuffer blockGame pausedBlockGame ∧
    (∀ row col : Int, InGrid blockGame row col →
      cgol_get_next (generate_next_matrix blockGame) row col
        = cgol_get_next (generate_next_matrix pausedBlockGame) row col) ∧
    cgol_get_next (generate_next_matrix blockGame) 1 1 = LIVE_CELL := by
  have hag : ∀ row col : Int, InGrid blockGame row col →
      cgol_get blockGame row col = cgol_get pausedBlockGame row col := by
    intro row col h
    simp only [InGrid, blockGame] at h
    have h4 : 4 * row + col ≠ 1000 := by omega
    simp [cgol_get, blockGame, pausedBlockGame, h4]
  have hout : SameBytesAroundBuffer blockGame pausedBlockGame := by
    intro i h
    simp only [blockGame] at h
    have h5 : ¬ (i = 5 ∨ i = 6 ∨ i = 9 ∨ i = 10) := by omega
    have h6 : ¬ (i = 5 ∨ i = 6 ∨ i = 9 ∨ i = 10 ∨ i = 1000) := by omega
    simp only [blockGame, pausedBlockGame]
    rw [if_neg h5, if_neg h6]
  have hthm := generate_next_matrix_pure blockGame pausedBlockGame rfl rfl hag
    (fun _ _ _ => rfl) (fun _ _ _ => rfl)
  refine ⟨rfl, rfl, hag, fun _ _ _ => rfl, fun _ _ _ => rfl, by decide, by decide, by decide,
    hthm, hout, hthm.2 hout, ?_⟩
  rw [generate_next_matrix_cell blockGame 1 1 (by unfold InGrid; decide)]
  decide

/-! ## Later claims: randrange and construction -/

/-- What does hold for randrange(1, 100) with RAND_MAX = 2147483647: the result
lies between 1 and 102. -/
theorem randrange_1_100_bounds (r : Int) (h0 : 0 ≤ r) (h1 : r ≤ 2147483647) :
    1 ≤ randrange 2147483647 r 1 100 ∧ randrange 2147483647 r 1 100 ≤ 102 := by
  unfold randrange
  have e : Int.tdiv 2147483647 (100 + 1 + 1) + 1 = 21053762 := by decide
  rw [e, Int.tdiv_eq_ediv h0 (by decide)]
  omega

/-- Claim C14, evaluated where it fails. With RAND_MAX = 2147483647 the divisor
of randrange(1, 100) is RAND_MAX / 102 + 1 = 21053762; when rand() returns
RAND_MAX the quotient is 101 and randrange(1, 100) returns 102, above max; the
value 2105376200 already gives 101. -/
theorem randrange_exceeds_max :
    (0 : Int) ≤ 2147483647 ∧ (2147483647 : Int) ≤ 2147483647 ∧
    Int.tdiv 2147483647 (1 + 100 + 1) + 1 = 21053762 ∧
    randrange 2147483647 2147483647 1 100 = 102 ∧
    randrange 2147483647 2105376200 1 100 = 101 ∧
    ¬ (randrange 2147483647 2147483647 1 100 ≤ 100) := by
  decide

theorem cgol_create_fields (tickDelay : Int) (mem1 mem2 : Int → Int) (RAND_MAX : Int)
    (rand : Nat → Int) (rows cols : Int) :
    (cgol_create tickDelay mem1 mem2 RAND_MAX rand rows cols).rows = rows ∧
    (cgol_create tickDelay mem1 mem2 RAND_MAX rand rows cols).cols = cols ∧
    (cgol_create tickDelay mem1 mem2 RAND_MAX rand rows cols).tick_delay = tickDelay ∧
    (cgol_create tickDelay mem1 mem2 RAND_MAX rand rows cols).paused = false := by
  have h := (cgol_populate_writes RAND_MAX rand (cgol_init tickDelay mem1 mem2 rows cols)).1
  exact ⟨h.1, h.2.1, h.2.2.2.1, h.2.2.2.2⟩

/-- Claim C15, refuted. Called with rows = 0, cols = 0 and with rows = -1,
cols = -1, cgol_create returns a game object carrying exactly those dimensions;
no error is raised. -/
theorem cgol_create_accepts_non_positive_dimensions :
    (cgol_create TICK_DELAY (fun _ => 0) (fun _ => 0) 2147483647 (fun _ => 0) 0 0).rows = 0 ∧
    (cgol_create TICK_DELAY (fun _ => 0) (fun _ => 0) 2147483647 (fun _ => 0) 0 0).cols = 0 ∧
    (cgol_create TICK_DELAY (fun _ => 0) (fun _ => 0) 2147483647 (fun _ => 0) (-1) (-1)).rows
      = -1 ∧
    (cgol_create TICK_DELAY (fun _ => 0) (fun _ => 0) 2147483647 (fun _ => 0) (-1) (-1)).cols
      = -1 :=
  ⟨rfl, rfl, rfl, rfl⟩

/-- Claim C15, amended. The function cgol_create checks no dimension: for
rows <= 0 or cols <= 0 (with a product that is a valid allocation size) it
returns a game object with the rows and cols it was given, the countdown at
TICK_DELAY, paused false, and a grid without any cell. -/
theorem cgol_create_has_no_dimension_check (tickDelay : Int) (mem1 mem2 : Int → Int)
    (RAND_MAX : Int) (rand : Nat → Int) (rows cols : Int)
    (h : rows ≤ 0 ∨ cols ≤ 0) (hp : 0 ≤ rows * cols) :
    (cgol_create tickDelay mem1 mem2 RAND_MAX rand rows cols).rows = rows ∧
    (cgol_create tickDelay mem1 mem2 RAND_MAX rand rows cols).cols = cols ∧
    (cgol_create tickDelay mem1 mem2 RAND_MAX rand rows cols).tick_delay = tickDelay ∧
    (cgol_create tickDelay mem1 mem2 RAND_MAX rand rows cols).paused = false ∧
    ∀ row col : Int,
      ¬ InGrid (cgol_create tickDelay mem1 mem2 RAND_MAX rand rows cols) row col := by
  have _ := hp
  obtain ⟨h1, h2, h3, h4⟩ := cgol_create_fields tickDelay mem1 mem2 RAND_MAX rand rows cols
  refine ⟨h1, h2, h3, h4, ?_⟩
  intro row col hin
  unfold InGrid at hin
  rw [h1, h2] at hin
  omega

theorem cgol_create_has_no_dimension_check_witness :
    ((0 : Int) ≤ 0 ∨ (7 : Int) ≤ 0) ∧ (0 : Int) ≤ 0 * 7 ∧
    ((cgol_create TICK_DELAY (fun _ => 5) (fun _ => 5) 2147483647 (fun k => (k : Int)) 0 7).rows
      = 0 ∧
    (cgol_create TICK_DELAY (fun _ => 5) (fun _ => 5) 2147483647 (fun k => (k : Int)) 0 7).cols
      = 7 ∧
    (cgol_create TICK_DELAY (fun _ => 5) (fun _ => 5) 2147483647
      (fun k => (k : Int)) 0 7).tick_delay = TICK_DELAY ∧
    (cgol_create TICK_DELAY (fun _ => 5) (fun _ => 5) 2147483647
      (fun k => (k : Int)) 0 7).paused = false ∧
    ∀ row col : Int,
      ¬ InGrid (cgol_create TICK_DELAY (fun _ => 5) (fun _ => 5) 2147483647
        (fun k => (k : Int)) 0 7) row col) :=
  ⟨by decide, by decide,
    cgol_create_has_no_dimension_check TICK_DELAY (fun _ => 5) (fun _ => 5) 2147483647
      (fun k => (k : Int)) 0 7 (by decide) (by decide)⟩

/-! ## Later claims: where the neighbour reads land -/

theorem cgol_adjacent_reads_eq (g : CGOL) (row col : Int) :
    cgol_adjacent_reads g row col =
      [g.cols * row + col - g.cols - 1, g.cols * row + col - g.cols,
        g.cols * row + col - g.cols + 1, g.cols * row + col - 1,
        g.cols * row + col + 1, g.cols * row + col + g.cols - 1,
        g.cols * row + col + g.cols, g.cols * row + col + g.cols + 1] := by
  have e1 : g.cols * (row + -1) + (col + -1) = g.cols * row + col - g.cols - 1 := by ring
  have e2 : g.cols * (row + -1) + (col + 0) = g.cols * row + col - g.cols := by ring
  have e3 : g.cols * (row + -1) + (col + 1) = g.cols * row + col - g.cols + 1 := by ring
  have e4 : g.cols * (row + 0) + (col + -1) = g.cols * row + col - 1 := by ring
  have e5 : g.cols * (row + 0) + (col + 1) = g.cols * row + col + 1 := by ring
  have e6 : g.cols * (row + 1) + (col + -1) = g.cols * row + col + g.cols - 1 := by ring
  have e7 : g.cols * (row + 1) + (col + 0) = g.cols * row + col + g.cols := by ring
  have e8 : g.cols * (row + 1) + (col + 1) = g.cols * row + col + g.cols + 1 := by ring
  have h : cgol_adjacent_reads g row col =
      [g.cols * (row + -1) + (col + -1), g.cols * (row + -1) + (col + 0),
        g.cols * (row + -1) + (col + 1), g.cols * (row + 0) + (col + -1),
        g.cols * (row + 0) + (col + 1), g.cols * (row + 1) + (col + -1),
        g.cols * (row + 1) + (col + 0), g.cols * (row + 1) + (col + 1)] := by
    simp [cgol_adjacent_reads, List.foldl]
  rw [h, e1, e2, e3, e4, e5, e6, e7, e8]

/-- The count cgol_adjacent returns is the number of recorded reads that hit a
byte equal to LIVE_CELL. -/
theorem cgol_adjacent_eq_reads_count (g : CGOL) (row col : Int) :
    cgol_adjacent g row col =
      (((cgol_adjacent_reads g row col).filter
        (fun i => decide (g.game_matrix i = LIVE_CELL))).length : Int) := by
  have step : ∀ (c : Prop) [Decidable c] (a : Int) (l : List Int),
      (((if c then a :: l else l).length : Nat) : Int) = (if c then 1 else 0) + (l.length : Int) := by
    intro c _ a l; split_ifs <;> simp [add_comm]
  have h : cgol_adjacent_reads g row col =
      [g.cols * (row + -1) + (col + -1), g.cols * (row + -1) + (col + 0),
        g.cols * (row + -1) + (col + 1), g.cols * (row + 0) + (col + -1),
        g.cols * (row + 0) + (col + 1), g.cols * (row + 1) + (col + -1),
        g.cols * (row + 1) + (col + 0), g.cols * (row + 1) + (col + 1)] := by
    simp [cgol_adjacent_reads, List.foldl]
  rw [cgol_adjacent_unfold, h]
  simp only [List.filter_cons, decide_eq_true_eq, step, List.filter_nil, List.length_nil,
    cgol_get]
  simp only [Nat.cast_zero, add_zero]
  ring

/-- The eight reads lie inside the buffer exactly when the lowest and the
highest of them do. -/
theorem readsInBuffer_iff (g : CGOL) (row col : Int) (hc : 1 ≤ g.cols) :
    ReadsInBuffer g row col ↔
      g.cols + 1 ≤ g.cols * row + col ∧
        g.cols * row + col ≤ g.rows * g.cols - g.cols - 2 := by
  unfold ReadsInBuffer
  rw [cgol_adjacent_reads_eq]
  simp only [List.forall_mem_cons, List.not_mem_nil, false_imp_iff, implies_true, and_true]
  constructor
  · intro h; omega
  · intro h; omega

theorem interior_index_bounds (g : CGOL) (row col : Int) (h : Interior g row col) :
    g.cols + 1 ≤ g.cols * row + col ∧
      g.cols * row + col ≤ g.rows * g.cols - g.cols - 2 := by
  unfold Interior at h
  have hc : (0 : Int) ≤ g.cols := by omega
  have h1 := mul_le_mul_of_nonneg_left (show (1 : Int) ≤ row by omega) hc
  have h2 := mul_le_mul_of_nonneg_left (show row ≤ g.rows - 2 by omega) hc
  constructor
  · nlinarith
  · nlinarith

theorem top_bottom_row_reads_outside (g : CGOL) (row col : Int) (hin : InGrid g row col)
    (h : row = 0 ∨ row = g.rows - 1) :
    ∃ i ∈ cgol_adjacent_reads g row col, i < 0 ∨ g.rows * g.cols ≤ i := by
  obtain ⟨_, _, h3, h4⟩ := hin
  rw [cgol_adjacent_reads_eq]
  rcases h with h | h
  · refine ⟨g.cols * row + col - g.cols - 1, by simp, Or.inl ?_⟩
    rw [h]
    simp only [mul_zero]
    omega
  · refine ⟨g.cols * row + col + g.cols + 1, by simp, Or.inr ?_⟩
    have e : g.cols * row = g.rows * g.cols - g.cols := by rw [h]; ring
    omega

theorem side_column_reads_inside (g : CGOL) (row col : Int) (hc : 1 ≤ g.cols)
    (hin : InGrid g row col) (hside : col = 0 ∨ col = g.cols - 1)
    (h1 : 1 ≤ row) (h2 : row ≤ g.rows - 2) (hl : col = 0 → 2 ≤ row)
    (hrt : col = g.cols - 1 → row ≤ g.rows - 3) : ReadsInBuffer g row col := by
  have _ := hin
  rw [readsInBuffer_iff g row col hc]
  have hc0 : (0 : Int) ≤ g.cols := by omega
  have p1 := mul_le_mul_of_nonneg_left h1 hc0
  have p2 := mul_le_mul_of_nonneg_left h2 hc0
  have e2 : g.cols * (g.rows - 2) = g.rows * g.cols - 2 * g.cols := by ring
  rw [mul_one] at p1
  rw [e2] at p2
  by_cases hone : g.cols = 1
  · have hcol : col = 0 := by omega
    have hrow := hl hcol
    have hrow2 := hrt (by omega)
    have e : g.cols * row = row := by rw [hone]; ring
    have e3 : g.rows * g.cols = g.rows := by rw [hone]; ring
    omega
  · rcases hside with h | h
    · have p3 := mul_le_mul_of_nonneg_left (hl h) hc0
      omega
    · have p3 := mul_le_mul_of_nonneg_left (hrt h) hc0
      have e4 : g.cols * (g.rows - 3) = g.rows * g.cols - 3 * g.cols := by ring
      rw [e4] at p3
      omega

theorem out_of_grid_column_aliases (g : CGOL) (r : Int) :
    cgol_get g r (-1) = cgol_get g (r - 1) (g.cols - 1) ∧
    cgol_get g r g.cols = cgol_get g (r + 1) 0 := by
  unfold cgol_get
  constructor
  · congr 1; ring
  · congr 1; ring

/-- Claim C16, refuted. In the 4 by 4 grid the cell (1, 0) lies in the left
column and neither in the top nor in the bottom row, yet cgol_adjacent reads
offset -1, which is outside the buffer. -/
theorem left_column_cell_reads_outside_buffer :
    (1 : Int) ≤ blockGame.rows ∧ (1 : Int) ≤ blockGame.cols ∧
    InGrid blockGame 1 0 ∧ (1 : Int) ≠ 0 ∧ (1 : Int) ≠ blockGame.rows - 1 ∧
    (-1 : Int) ∈ cgol_adjacent_reads blockGame 1 0 ∧
    ¬ ReadsInBuffer blockGame 1 0 := by
  refine ⟨by decide, by decide, by unfold InGrid; decide, by decide, by decide, by decide, ?_⟩
  intro h
  have := h (-1) (by decide)
  omega

/-- Claim C16, amended. For rows >= 1 and cols >= 1: every cell of the top or
bottom row has a neighbour read outside [0, rows*cols); a cell of the left
column in rows 2 .. rows-2, or of the right column in rows 1 .. rows-3, has all
its neighbour reads inside the buffer; and the out-of-grid neighbours (r, -1)
and (r, cols) are read from the cells (r-1, cols-1) and (r+1, 0). -/
theorem neighbour_reads_on_the_border (g : CGOL) (row col : Int)
    (hr : 1 ≤ g.rows) (hc : 1 ≤ g.cols) (hin : InGrid g row col) :
    ((row = 0 ∨ row = g.rows - 1) →
      ∃ i ∈ cgol_adjacent_reads g row col, i < 0 ∨ g.rows * g.cols ≤ i) ∧
    ((col = 0 ∨ col = g.cols - 1) → 1 ≤ row → row ≤ g.rows - 2 →
      (col = 0 → 2 ≤ row) → (col = g.cols - 1 → row ≤ g.rows - 3) →
      ReadsInBuffer g row col) ∧
    (∀ r : Int, cgol_get g r (-1) = cgol_get g (r - 1) (g.cols - 1) ∧
      cgol_get g r g.cols = cgol_get g (r + 1) 0) := by
  have _ := hr
  exact ⟨top_bottom_row_reads_outside g row col hin,
    side_column_reads_inside g row col hc hin, out_of_grid_column_aliases g⟩

theorem neighbour_reads_on_the_border_witness :
    (1 : Int) ≤ staleBlockGame.rows ∧ (1 : Int) ≤ staleBlockGame.cols ∧
    InGrid staleBlockGame 2 0 ∧
    (((2 : Int) = 0 ∨ (2 : Int) = staleBlockGame.rows - 1) →
      ∃ i ∈ cgol_adjacent_reads staleBlockGame 2 0,
        i < 0 ∨ staleBlockGame.rows * staleBlockGame.cols ≤ i) ∧
    (((0 : Int) = 0 ∨ (0 : Int) = staleBlockGame.cols - 1) → (1 : Int) ≤ 2 →
      (2 : Int) ≤ staleBlockGame.rows - 2 →
      ((0 : Int) = 0 → (2 : Int) ≤ 2) →
      ((0 : Int) = staleBlockGame.cols - 1 → (2 : Int) ≤ staleBlockGame.rows - 3) →
      ReadsInBuffer staleBlockGame 2 0) ∧
    (∀ r : Int, cgol_get staleBlockGame r (-1)
        = cgol_get staleBlockGame (r - 1) (staleBlockGame.cols - 1) ∧
      cgol_get staleBlockGame r staleBlockGame.cols = cgol_get staleBlockGame (r + 1) 0) :=
  ⟨by decide, by decide, by unfold InGrid; decide,
    neighbour_reads_on_the_border staleBlockGame 2 0 (by decide) (by decide)
      (by unfold InGrid; decide)⟩

/-- Claim C18. For rows >= 1, cols >= 1 and an in-grid cell with linear index
i = cols*row + col, all eight reads of cgol_adjacent fall inside [0, rows*cols)
if and only if cols + 1 <= i <= rows*cols - cols - 2. Every cell with
1 <= row <= rows-2 and 1 <= col <= cols-2 is safe; cell (1, 0) reads offset -1
and cell (rows-2, cols-1) reads offset rows*cols, and with at least three rows
both are in-grid cells outside the top and bottom rows that are not safe. -/
theorem neighbour_reads_in_buffer_iff (g : CGOL) (row col : Int)
    (hr : 1 ≤ g.rows) (hc : 1 ≤ g.cols) (hin : InGrid g row col) :
    (ReadsInBuffer g row col ↔
      g.cols + 1 ≤ g.cols * row + col ∧
        g.cols * row + col ≤ g.rows * g.cols - g.cols - 2) ∧
    (Interior g row col → ReadsInBuffer g row col) ∧
    (-1 : Int) ∈ cgol_adjacent_reads g 1 0 ∧
    g.rows * g.cols ∈ cgol_adjacent_reads g (g.rows - 2) (g.cols - 1) ∧
    (3 ≤ g.rows →
      InGrid g 1 0 ∧ (1 : Int) ≠ 0 ∧ (1 : Int) ≠ g.rows - 1 ∧ ¬ ReadsInBuffer g 1 0 ∧
      InGrid g (g.rows - 2) (g.cols - 1) ∧ g.rows - 2 ≠ 0 ∧ g.rows - 2 ≠ g.rows - 1 ∧
        ¬ ReadsInBuffer g (g.rows - 2) (g.cols - 1)) := by
  have _ := hr
  have _ := hin
  have m1 : (-1 : Int) ∈ cgol_adjacent_reads g 1 0 := by
    rw [cgol_adjacent_reads_eq]
    have e : g.cols * 1 + 0 - g.cols - 1 = -1 := by ring
    rw [e]
    simp
  have m2 : g.rows * g.cols ∈ cgol_adjacent_reads g (g.rows - 2) (g.cols - 1) := by
    rw [cgol_adjacent_reads_eq]
    have e : g.cols * (g.rows - 2) + (g.cols - 1) + g.cols + 1 = g.rows * g.cols := by ring
    rw [e]
    simp
  refine ⟨readsInBuffer_iff g row col hc,
    fun h => (readsInBuffer_iff g row col hc).2 (interior_index_bounds g row col h),
    m1, m2, ?_⟩
  intro h3
  refine ⟨by unfold InGrid; omega, by omega, by omega, ?_, by unfold InGrid; omega,
    by omega, by omega, ?_⟩
  · intro h
    have := h (-1) m1
    omega
  · intro h
    have := h _ m2
    omega

theorem neighbour_reads_in_buffer_iff_witness :
    (1 : Int) ≤ blockGame.rows ∧ (1 : Int) ≤ blockGame.cols ∧ InGrid blockGame 1 1 ∧
    ((ReadsInBuffer blockGame 1 1 ↔
      blockGame.cols + 1 ≤ blockGame.cols * 1 + 1 ∧
        blockGame.cols * 1 + 1 ≤ blockGame.rows * blockGame.cols - blockGame.cols - 2) ∧
    (Interior blockGame 1 1 → ReadsInBuffer blockGame 1 1) ∧
    (-1 : Int) ∈ cgol_adjacent_reads blockGame 1 0 ∧
    blockGame.rows * blockGame.cols
      ∈ cgol_adjacent_reads blockGame (blockGame.rows - 2) (blockGame.cols - 1) ∧
    (3 ≤ blockGame.rows →
      InGrid blockGame 1 0 ∧ (1 : Int) ≠ 0 ∧ (1 : Int) ≠ blockGame.rows - 1 ∧
      ¬ ReadsInBuffer blockGame 1 0 ∧
      InGrid blockGame (blockGame.rows - 2) (blockGame.cols - 1) ∧
      blockGame.rows - 2 ≠ 0 ∧ blockGame.rows - 2 ≠ blockGame.rows - 1 ∧
        ¬ ReadsInBuffer blockGame (blockGame.rows - 2) (blockGame.cols - 1))) :=
  ⟨by decide, by decide, by unfold InGrid; decide,
    neighbour_reads_in_buffer_iff blockGame 1 1 (by decide) (by decide)
      (by unfold InGrid; decide)⟩

/-! ## Later claims: reachable states and the standard rule -/

theorem scratchDead_of_next_dead (g : CGOL)
    (h : ∀ row col : Int, InGrid g row col → cgol_get_next g row col = DEAD_CELL) :
    ScratchDeadWhereDead g :=
  fun row col hin _ => h row col hin

theorem cgol_populate_next_dead (RAND_MAX : Int) (rand : Nat → Int) (g : CGOL)
    (h : ∀ i : Int, 0 ≤ i → i < g.rows * g.cols → g.next_matrix i = DEAD_CELL) :
    ScratchDeadWhereDead (cgol_populate RAND_MAX rand g) := by
  obtain ⟨h1, h2, h3, _, _⟩ := (cgol_populate_writes RAND_MAX rand g).1
  apply scratchDead_of_next_dead
  intro row col hin
  have hin2 : InGrid g row col := by
    unfold InGrid at hin ⊢
    rw [h1, h2] at hin
    exact hin
  have hb := index_in_buffer g row col hin2
  unfold cgol_get_next
  rw [h2, h3]
  exact h _ hb.1 hb.2

theorem cgol_create_scratchDead (tickDelay : Int) (mem1 mem2 : Int → Int) (RAND_MAX : Int)
    (rand : Nat → Int) (rows cols : Int) :
    ScratchDeadWhereDead (cgol_create tickDelay mem1 mem2 RAND_MAX rand rows cols) := by
  apply cgol_populate_next_dead
  intro i h0 h1
  simp only [cgol_init] at h0 h1 ⊢
  simp [memset, h0, h1]

theorem reset_board_scratchDead (RAND_MAX : Int) (rand : Nat → Int) (g : CGOL) :
    ScratchDeadWhereDead (reset_board RAND_MAX rand g) := by
  apply cgol_populate_next_dead
  intro i h0 h1
  simp only [cgol_erase_matrix] at h0 h1 ⊢
  simp [memset, h0, h1]

theorem refresh_matrix_scratchDead (g : CGOL) : ScratchDeadWhereDead (refresh_matrix g) := by
  have hf := refresh_matrix_frame g
  have hg := generate_next_matrix_frame g
  intro row col hin hdead
  have hin2 : InGrid g row col := by
    unfold InGrid at hin ⊢
    rw [hf.1, hf.2.1] at hin
    exact hin
  have e : cgol_get_next (refresh_matrix g) row col
      = cgol_get_next (generate_next_matrix g) row col := by
    unfold cgol_get_next
    rw [hf.2.2.1, hf.2.1, hg.2.1]
  rw [e, ← refresh_matrix_cell g row col hin2]
  exact hdead

theorem tick_scratchDead (tickDelay : Int) (g : CGOL) (h : ScratchDeadWhereDead g) :
    ScratchDeadWhereDead (tick tickDelay g) := by
  by_cases hd : 1 < g.tick_delay
  · rw [tick_of_gt tickDelay g hd]
    exact h
  · rw [tick_of_le tickDelay g (by omega)]
    exact refresh_matrix_scratchDead g

theorem reachableInMain_invariant (RAND_MAX : Int) (g : CGOL)
    (h : ReachableInMain RAND_MAX g) : CellsBinary g ∧ ScratchDeadWhereDead g := by
  induction h with
  | create tickDelay mem1 mem2 rand rows cols =>
    exact ⟨cgol_create_binary _ _ _ _ _ _ _, cgol_create_scratchDead _ _ _ _ _ _ _⟩
  | tick tickDelay g _ ih => exact ⟨tick_binary _ g ih.1, tick_scratchDead _ g ih.2⟩
  | reset rand g _ _ =>
    exact ⟨cgol_populate_binary _ _ _ (cgol_erase_matrix_binary g),
      reset_board_scratchDead _ _ g⟩
  | pause g _ ih => exact ih

/-- With binary cells and a scratch grid that is Dead wherever the current grid
is Dead, refresh_matrix applies the standard rule to a cell whose neighbours are
all inside the grid. -/
theorem refresh_matrix_standard_rule (g : CGOL) (hb : CellsBinary g)
    (hs : ScratchDeadWhereDead g) (row col : Int) (hint : Interior g row col) :
    cgol_get (refresh_matrix g) row col = LIVE_CELL ↔
      (liveNeighbourCount g row col = 3 ∨
        (cgol_get g row col = LIVE_CELL ∧ liveNeighbourCount g row col = 2)) := by
  have hin := hint.inGrid
  rw [refresh_matrix_cell_value g row col hin]
  unfold nextCellValue cellWrite
  rw [cgol_adjacent_eq_count]
  rcases (hb row col hin).1 with hd | hl
  · have hn := hs row col hin hd
    unfold cgol_get_next at hn
    by_cases h3 : liveNeighbourCount g row col = 3
    · simp [hd, h3]
    · have h3i : ¬ (liveNeighbourCount g row col : Int) = 3 := by exact_mod_cast h3
      simp [hd, h3, h3i, hn]
  · by_cases h1 : (liveNeighbourCount g row col : Int) ≤ 1
    · have : ¬ liveNeighbourCount g row col = 3 := by omega
      have : ¬ liveNeighbourCount g row col = 2 := by omega
      simp [hl, h1, *]
    · by_cases h4 : (liveNeighbourCount g row col : Int) ≥ 4
      · have : ¬ liveNeighbourCount g row col = 3 := by omega
        have : ¬ liveNeighbourCount g row col = 2 := by omega
        simp [hl, h1, h4, *]
      · have h23 : (liveNeighbourCount g row col : Int) = 2 ∨
            (liveNeighbourCount g row col : Int) = 3 := by omega
        have h23n : liveNeighbourCount g row col = 3 ∨ liveNeighbourCount g row col = 2 := by
          omega
        simp [hl, h1, h4, h23]
        exact h23n

/-- Claim C17. In every state reachable from cgol_create by tick calls and
resets (and toggles of the paused flag), every in-grid cell that is Dead in the
current grid is Dead in the scratch grid; hence, for a cell whose eight
neighbours lie inside the grid, the cell is Live after refresh_matrix if and
only if its live-neighbour count before the call is 3, or it was Live and the
count is 2. -/
theorem reachable_states_follow_standard_rule (RAND_MAX : Int) (g : CGOL)
    (h : ReachableInMain RAND_MAX g) :
    ScratchDeadWhereDead g ∧
    ∀ row col : Int, Interior g row col →
      (cgol_get (refresh_matrix g) row col = LIVE_CELL ↔
        (liveNeighbourCount g row col = 3 ∨
          (cgol_get g row col = LIVE_CELL ∧ liveNeighbourCount g row col = 2))) := by
  obtain ⟨hb, hs⟩ := reachableInMain_invariant RAND_MAX g h
  exact ⟨hs, fun row col hint => refresh_matrix_standard_rule g hb hs row col hint⟩

theorem reachable_states_follow_standard_rule_witness :
    ReachableInMain 2147483647 blinkerGame ∧
    (ScratchDeadWhereDead blinkerGame ∧
      ∀ row col : Int, Interior blinkerGame row col →
        (cgol_get (refresh_matrix blinkerGame) row col = LIVE_CELL ↔
          (liveNeighbourCount blinkerGame row col = 3 ∨
            (cgol_get blinkerGame row col = LIVE_CELL ∧
              liveNeighbourCount blinkerGame row col = 2)))) ∧
    (cgol_get blinkerStart 2 1 = LIVE_CELL ∧ cgol_get blinkerStart 1 2 = DEAD_CELL) ∧
    (cgol_get blinkerGame 2 1 = DEAD_CELL ∧ liveNeighbourCount blinkerGame 2 1 = 3 ∧
      cgol_get (refresh_matrix blinkerGame) 2 1 = LIVE_CELL) ∧
    (cgol_get blinkerGame 2 2 = LIVE_CELL ∧ liveNeighbourCount blinkerGame 2 2 = 2 ∧
      cgol_get (refresh_matrix blinkerGame) 2 2 = LIVE_CELL) ∧
    (cgol_get blinkerGame 1 2 = LIVE_CELL ∧ liveNeighbourCount blinkerGame 1 2 = 1 ∧
      cgol_get (refresh_matrix blinkerGame) 1 2 ≠ LIVE_CELL) ∧
    (cgol_get blinkerGame 1 1 = DEAD_CELL ∧ liveNeighbourCount blinkerGame 1 1 = 2 ∧
      cgol_get (refresh_matrix blinkerGame) 1 1 ≠ LIVE_CELL) := by
  have hr : ReachableInMain 2147483647 blinkerGame :=
    ReachableInMain.tick 1 _ (ReachableInMain.create 1 (fun _ => 5) (fun _ => 5) blinkerRand 5 5)
  have hthm := reachable_states_follow_standard_rule 2147483647 blinkerGame hr
  have i21 : Interior blinkerGame 2 1 := by unfold Interior; decide!
  have i22 : Interior blinkerGame 2 2 := by unfold Interior; decide!
  have i12 : Interior blinkerGame 1 2 := by unfold Interior; decide!
  have i11 : Interior blinkerGame 1 1 := by unfold Interior; decide!
  have c21 : cgol_get blinkerGame 2 1 = DEAD_CELL := by decide!
  have n21 : liveNeighbourCount blinkerGame 2 1 = 3 := by decide!
  have c22 : cgol_get blinkerGame 2 2 = LIVE_CELL := by decide!
  have n22 : liveNeighbourCount blinkerGame 2 2 = 2 := by decide!
  have c12 : cgol_get blinkerGame 1 2 = LIVE_CELL := by decide!
  have n12 : liveNeighbourCount blinkerGame 1 2 = 1 := by decide!
  have c11 : cgol_get blinkerGame 1 1 = DEAD_CELL := by decide!
  have n11 : liveNeighbourCount blinkerGame 1 1 = 2 := by decide!
  refine ⟨hr, hthm, ⟨by decide!, by decide!⟩,
    ⟨c21, n21, (hthm.2 2 1 i21).2 (Or.inl n21)⟩,
    ⟨c22, n22, (hthm.2 2 2 i22).2 (Or.inr ⟨c22, n22⟩)⟩,
    ⟨c12, n12, ?_⟩, ⟨c11, n11, ?_⟩⟩
  · intro h
    rcases (hthm.2 1 2 i12).1 h with h3 | ⟨_, h2⟩
    · rw [n12] at h3; exact absurd h3 (by decide)
    · rw [n12] at h2; exact absurd h2 (by decide)
  · intro h
    rcases (hthm.2 1 1 i11).1 h with h3 | ⟨h1, _⟩
    · rw [n11] at h3; exact absurd h3 (by decide)
    · rw [c11] at h1; exact absurd h1 (by decide)

/-! ## Later claims: counting ticks -/

theorem refresh_matrix_iterate_tick_delay (q : Nat) (g : CGOL) :
    (refresh_matrix^[q] g).tick_delay = g.tick_delay := by
  induction q with
  | zero => rfl
  | succ q ih =>
    rw [Function.iterate_succ_apply', (refresh_matrix_frame _).2.2.2.1, ih]

/-- With the countdown at N >= 1, N calls of tick are one refresh_matrix. -/
theorem tick_iterate_period (N : Int) (hN : 1 ≤ N) (g : CGOL) (hg : g.tick_delay = N) :
    (tick N)^[N.toNat] g = refresh_matrix g := by
  have h := tick_iterate_full N g (by omega)
  rw [hg] at h
  rw [h]
  have ht : (refresh_matrix g).tick_delay = N := by
    rw [(refresh_matrix_frame g).2.2.2.1, hg]
  rw [← ht]

theorem tick_iterate_periods (N : Int) (hN : 1 ≤ N) (g : CGOL) (hg : g.tick_delay = N)
    (q : Nat) : (tick N)^[N.toNat * q] g = refresh_matrix^[q] g := by
  induction q with
  | zero => rfl
  | succ q ih =>
    have e : N.toNat * (q + 1) = N.toNat + N.toNat * q := by ring
    rw [e, Function.iterate_add_apply, ih, Function.iterate_succ_apply']
    exact tick_iterate_period N hN _ (by rw [refresh_matrix_iterate_tick_delay, hg])

/-- After k calls of tick the state is floor(k / N) applications of
refresh_matrix with the countdown at N - (k mod N). -/
theorem tick_iterate_eq (N : Int) (hN : 1 ≤ N) (g : CGOL) (hg : g.tick_delay = N) (k : Nat) :
    (tick N)^[k] g =
      { refresh_matrix^[k / N.toNat] g with
        tick_delay := N - ((k % N.toNat : Nat) : Int) } := by
  have hpos : 0 < N.toNat := by omega
  have hlt : ((k % N.toNat : Nat) : Int) < N := by
    have := Nat.mod_lt k hpos
    omega
  have e : k = k % N.toNat + N.toNat * (k / N.toNat) := (Nat.mod_add_div k N.toNat).symm
  have htd : (refresh_matrix^[k / N.toNat] g).tick_delay = N := by
    rw [refresh_matrix_iterate_tick_delay, hg]
  conv_lhs => rw [e]
  rw [Function.iterate_add_apply, tick_iterate_periods N hN g hg,
    tick_iterate_of_lt N _ _ (by rw [htd]; exact hlt), htd]

/-- Claim C19. With N = TICK_DELAY >= 1 fixed and the countdown starting at N,
after k calls of tick the grids are those of floor(k / N) applications of
refresh_matrix to the initial state and the countdown is N - (k mod N), which
lies in [1, N]. -/
theorem tick_count_gives_generations (N : Int) (hN : 1 ≤ N) (g : CGOL)
    (hg : g.tick_delay = N) (k : Nat) :
    ((tick N)^[k] g).game_matrix = (refresh_matrix^[k / N.toNat] g).game_matrix ∧
    ((tick N)^[k] g).next_matrix = (refresh_matrix^[k / N.toNat] g).next_matrix ∧
    ((tick N)^[k] g).tick_delay = N - ((k % N.toNat : Nat) : Int) ∧
    1 ≤ ((tick N)^[k] g).tick_delay ∧ ((tick N)^[k] g).tick_delay ≤ N := by
  have hpos : 0 < N.toNat := by omega
  have hlt := Nat.mod_lt k hpos
  rw [tick_iterate_eq N hN g hg k]
  refine ⟨rfl, rfl, rfl, ?_, ?_⟩
  · show 1 ≤ N - ((k % N.toNat : Nat) : Int)
    omega
  · show N - ((k % N.toNat : Nat) : Int) ≤ N
    omega

theorem tick_count_gives_generations_witness :
    1 ≤ TICK_DELAY ∧ blockGame.tick_delay = TICK_DELAY ∧
    (((tick TICK_DELAY)^[25] blockGame).game_matrix
      = (refresh_matrix^[25 / TICK_DELAY.toNat] blockGame).game_matrix ∧
    ((tick TICK_DELAY)^[25] blockGame).next_matrix
      = (refresh_matrix^[25 / TICK_DELAY.toNat] blockGame).next_matrix ∧
    ((tick TICK_DELAY)^[25] blockGame).tick_delay
      = TICK_DELAY - ((25 % TICK_DELAY.toNat : Nat) : Int) ∧
    1 ≤ ((tick TICK_DELAY)^[25] blockGame).tick_delay ∧
    ((tick TICK_DELAY)^[25] blockGame).tick_delay ≤ TICK_DELAY) :=
  ⟨by decide, rfl, tick_count_gives_generations TICK_DELAY (by decide) blockGame rfl 25⟩

end Cgol
